import Mathlib

/-!
Verification of the billing/inventory ledger subsystem of a clinic
management application (Django app `billing`).

Money amounts are modelled in integer cents (`ℤ`): every monetary field in
the source is a `DecimalField` with `decimal_places=2`, so all stored values
are exact multiples of 0.01 and the `quantize(Decimal('0.01'))` calls on
products/sums of such values are the identity.  Quantities are `ℕ`
(`PositiveIntegerField`).  Status fields are the literal strings stored by
the Django `CharField` choices.
-/

namespace Billing

/-! ## Purchase orders and `update_status` (billing/models.py, PurchaseOrder) -/

structure PurchaseOrderItemRow where
  pk : ℕ
  quantity : ℕ
  quantity_received : ℕ
  deriving DecidableEq, Repr

structure PurchaseOrderRow where
  status : String
  items : List PurchaseOrderItemRow
  payments : List ℤ
  deriving DecidableEq, Repr

/-- `PurchaseOrder.update_status` (models.py lines 529-541): recomputes the
status from the aggregate ordered/received quantities of the order's items
and saves it.  The current status is never read. -/
def PurchaseOrderRow.update_status (po : PurchaseOrderRow) : PurchaseOrderRow :=
  if po.items.isEmpty then
    { po with status := "PENDING" }
  else
    let total_ord : ℕ := (po.items.map (fun it => it.quantity)).sum
    let total_rec : ℕ := (po.items.map (fun it => it.quantity_received)).sum
    if total_rec = 0 then { po with status := "PENDING" }
    else if total_rec < total_ord then { po with status := "PARTIALLY_RECEIVED" }
    else { po with status := "COMPLETED" }

/-- `SupplierPayment.save` (models.py lines 561-563): stores the payment row
and then unconditionally calls `self.purchase_order.update_status()`. -/
def supplier_payment_save (po : PurchaseOrderRow) (amount : ℤ) : PurchaseOrderRow :=
  PurchaseOrderRow.update_status { po with payments := po.payments ++ [amount] }

/-- The status value determined purely by the aggregate ordered and received
quantities (specification-side reading of `update_status`; the no-items case
of the code coincides with the `total_rec = 0` case because both aggregates
are then zero). -/
def status_from_aggregates (total_ord total_rec : ℕ) : String :=
  if total_rec = 0 then "PENDING"
  else if total_rec < total_ord then "PARTIALLY_RECEIVED"
  else "COMPLETED"

lemma update_status_status (po : PurchaseOrderRow) :
    (po.update_status).status =
      status_from_aggregates ((po.items.map (fun it => it.quantity)).sum)
        ((po.items.map (fun it => it.quantity_received)).sum) := by
  unfold PurchaseOrderRow.update_status status_from_aggregates
  by_cases hE : po.items = []
  · simp [hE]
  · have hne : po.items.isEmpty = false := by
      simpa [List.isEmpty_iff] using hE
    simp only [hne, Bool.false_eq_true, if_false]
    split_ifs <;> rfl

lemma status_from_aggregates_mem (a b : ℕ) :
    status_from_aggregates a b ∈ ["PENDING", "PARTIALLY_RECEIVED", "COMPLETED"] := by
  unfold status_from_aggregates
  split_ifs <;> simp

lemma status_from_aggregates_ne_cancelled (a b : ℕ) :
    status_from_aggregates a b ≠ "CANCELLED" := by
  unfold status_from_aggregates
  split_ifs <;> decide

/-- C10: `PurchaseOrder.update_status()` assigns a status in
PENDING / PARTIALLY_RECEIVED / COMPLETED computed solely from the aggregate
ordered and received quantities of the order's items, ignoring the order's
current status; in particular, calling it on a CANCELLED order (as saving a
`SupplierPayment` for that order does) overwrites CANCELLED with one of those
three values. -/
theorem update_status_from_aggregates (po : PurchaseOrderRow) (s : String) (amount : ℤ) :
    (po.update_status).status =
      status_from_aggregates ((po.items.map (fun it => it.quantity)).sum)
        ((po.items.map (fun it => it.quantity_received)).sum) ∧
    (({ po with status := s } : PurchaseOrderRow).update_status).status =
      (po.update_status).status ∧
    (po.update_status).status ∈ ["PENDING", "PARTIALLY_RECEIVED", "COMPLETED"] ∧
    (supplier_payment_save { po with status := "CANCELLED" } amount).status ≠ "CANCELLED" := by
  refine ⟨update_status_status po, ?_, ?_, ?_⟩
  · rw [update_status_status, update_status_status]
  · rw [update_status_status]
    exact status_from_aggregates_mem _ _
  · unfold supplier_payment_save
    rw [update_status_status]
    exact status_from_aggregates_ne_cancelled _ _

/-! ## Supplier credits (billing/signals.py, billing/views.py) -/

structure SupplierCreditRow where
  initial_amount : ℤ
  balance : ℤ
  is_fully_used : Bool
  /-- `amount_applied` of each `CreditApplication` recorded against this
  credit, in creation order. -/
  applications : List ℤ
  deriving DecidableEq, Repr

/-- Signal `update_credit_balance_on_application` (signals.py lines 88-101):
on creation of a `CreditApplication`, decrement the credit's balance by
`amount_applied` and set `is_fully_used` once the balance is ≤ 0. -/
def update_credit_balance_on_application (credit : SupplierCreditRow)
    (amount_applied : ℤ) : SupplierCreditRow :=
  if credit.balance - amount_applied ≤ 0 then
    { credit with balance := credit.balance - amount_applied, is_fully_used := true }
  else
    { credit with balance := credit.balance - amount_applied }

/-- `apply_supplier_credit_view` (views.py lines 963-1001): rejects
non-positive amounts, amounts exceeding the credit's balance and amounts
exceeding the purchase order's `balance_due`; otherwise creates a
`CreditApplication`, which triggers the balance-update signal. -/
def apply_supplier_credit (credit : SupplierCreditRow)
    (po_balance_due amount_to_apply : ℤ) : SupplierCreditRow :=
  if amount_to_apply ≤ 0 then credit
  else if credit.balance < amount_to_apply then credit
  else if po_balance_due < amount_to_apply then credit
  else
    update_credit_balance_on_application
      { credit with applications := credit.applications ++ [amount_to_apply] }
      amount_to_apply

/-- States of a `SupplierCredit` reachable from its creation (balance equal
to `initial_amount`, flag clear, no applications) through the guarded
apply-credit operation. -/
inductive CreditReachable (init : ℤ) : SupplierCreditRow → Prop where
  | init : CreditReachable init
      { initial_amount := init, balance := init, is_fully_used := false,
        applications := [] }
  | step (due amt : ℤ) {c : SupplierCreditRow} :
      CreditReachable init c →
      CreditReachable init (apply_supplier_credit c due amt)

lemma credit_invariant {init : ℤ} (hpos : 0 < init) {c : SupplierCreditRow}
    (h : CreditReachable init c) :
    c.initial_amount = init ∧ 0 ≤ c.balance ∧
      c.balance = c.initial_amount - c.applications.sum ∧
      (c.is_fully_used = true ↔ c.balance ≤ 0) := by
  induction h with
  | init =>
    refine ⟨rfl, le_of_lt hpos, by simp, ?_⟩
    simp [hpos.not_le]
  | step due amt h ih =>
    obtain ⟨hinit, hnn, hbal, hflag⟩ := ih
    unfold apply_supplier_credit update_credit_balance_on_application
    split_ifs with h1 h2 h3 h4
    · exact ⟨hinit, hnn, hbal, hflag⟩
    · exact ⟨hinit, hnn, hbal, hflag⟩
    · exact ⟨hinit, hnn, hbal, hflag⟩
    · push_neg at h1 h2 h3
      simp only at h4 ⊢
      refine ⟨hinit, by omega, ?_, by simp; omega⟩
      simp only [List.sum_append, List.sum_cons, List.sum_nil]
      omega
    · push_neg at h1 h2 h3
      simp only at h4 ⊢
      refine ⟨hinit, by omega, ?_, ?_⟩
      · simp only [List.sum_append, List.sum_cons, List.sum_nil]
        omega
      · constructor
        · intro hu
          have := hflag.mp hu
          omega
        · intro hle'
          omega

/-! ## Purchase returns: refunds and replacements
(models.py `PurchaseReturn`, forms.py `SupplierRefundForm` /
`ReplacementStockForm`, views.py `add_supplier_refund_view` /
`receive_replacement_view`) -/

structure ReturnState where
  /-- `PurchaseReturn.quantity` (fixed at creation). -/
  quantity : ℕ
  /-- `stock_item.cost_price` in cents (fixed at creation). -/
  cost_price : ℤ
  /-- `ReplacementItem.quantity` rows linked to this return. -/
  replaced : List ℕ
  /-- `SupplierRefund.amount` rows linked to this return, in cents. -/
  refunds : List ℤ
  deriving DecidableEq, Repr

/-- `PurchaseReturn.quantity_replaced` (models.py line 602). -/
def ReturnState.quantity_replaced (s : ReturnState) : ℕ := s.replaced.sum

/-- `PurchaseReturn.amount_refunded` (models.py line 606). -/
def ReturnState.amount_refunded (s : ReturnState) : ℤ := s.refunds.sum

/-- `PurchaseReturn.total_value` (models.py line 596). -/
def ReturnState.total_value (s : ReturnState) : ℤ := s.quantity * s.cost_price

/-- `PurchaseReturn.value_of_items_replaced` (models.py line 610). -/
def ReturnState.value_of_items_replaced (s : ReturnState) : ℤ :=
  s.quantity_replaced * s.cost_price

/-- `PurchaseReturn.value_pending_action` (models.py line 616):
`max(total_value - value_of_items_replaced - amount_refunded, 0)`. -/
def ReturnState.value_pending_action (s : ReturnState) : ℤ :=
  max (s.total_value - s.value_of_items_replaced - s.amount_refunded) 0

/-- `PurchaseReturn.quantity_pending_action` (models.py line 623): falls back
to `quantity - quantity_replaced` when `cost_price ≤ 0`, otherwise
`int(value_pending_action / cost_price)`; both operands are non-negative
there, so Decimal truncation is floor division. -/
def ReturnState.quantity_pending_action (s : ReturnState) : ℤ :=
  if s.cost_price ≤ 0 then (s.quantity : ℤ) - (s.quantity_replaced : ℤ)
  else s.value_pending_action / s.cost_price

/-- `add_supplier_refund_view` + `SupplierRefundForm.clean_amount`:
the view rejects a fully-actioned return (`value_pending_action ≤ 0`); the
form rejects `amount ≤ 0` and `amount > value_pending_action`; on success a
`SupplierRefund` row is stored. -/
def add_supplier_refund (s : ReturnState) (amount : ℤ) : ReturnState :=
  if s.value_pending_action ≤ 0 then s
  else if amount ≤ 0 then s
  else if s.value_pending_action < amount then s
  else { s with refunds := s.refunds ++ [amount] }

/-- `receive_replacement_view` + `ReplacementStockForm.clean_quantity`:
the view rejects when `quantity_pending_action ≤ 0`; the form field requires
`quantity ≥ 1` and rejects `quantity > quantity_pending_action`; on success
a `ReplacementItem` row is stored. -/
def receive_replacement (s : ReturnState) (qty : ℕ) : ReturnState :=
  if s.quantity_pending_action ≤ 0 then s
  else if qty < 1 then s
  else if s.quantity_pending_action < (qty : ℤ) then s
  else { s with replaced := s.replaced ++ [qty] }

/-- States of a `PurchaseReturn` reachable from its creation through the
guarded refund / replacement operations. -/
inductive ReturnReachable (q : ℕ) (c : ℤ) : ReturnState → Prop where
  | init : ReturnReachable q c
      { quantity := q, cost_price := c, replaced := [], refunds := [] }
  | refund (a : ℤ) {s : ReturnState} :
      ReturnReachable q c s → ReturnReachable q c (add_supplier_refund s a)
  | replace (n : ℕ) {s : ReturnState} :
      ReturnReachable q c s → ReturnReachable q c (receive_replacement s n)

lemma amount_refunded_append (s : ReturnState) (a : ℤ) :
    ({ s with refunds := s.refunds ++ [a] } : ReturnState).amount_refunded
      = s.amount_refunded + a := by
  simp [ReturnState.amount_refunded]

lemma value_replaced_append (s : ReturnState) (n : ℕ) :
    ({ s with replaced := s.replaced ++ [n] } : ReturnState).value_of_items_replaced
      = s.value_of_items_replaced + (n : ℤ) * s.cost_price := by
  simp only [ReturnState.value_of_items_replaced, ReturnState.quantity_replaced,
    List.sum_append, List.sum_cons, List.sum_nil]
  push_cast
  ring

lemma return_invariant {q : ℕ} {c : ℤ} (hc : 0 ≤ c) {s : ReturnState}
    (h : ReturnReachable q c s) :
    s.quantity = q ∧ s.cost_price = c ∧ 0 ≤ s.amount_refunded ∧
      (c = 0 → s.amount_refunded = 0) ∧
      s.value_of_items_replaced + s.amount_refunded ≤ s.total_value := by
  induction h with
  | init =>
    refine ⟨rfl, rfl, le_refl 0, fun _ => rfl, ?_⟩
    simp only [ReturnState.value_of_items_replaced, ReturnState.amount_refunded,
      ReturnState.total_value, ReturnState.quantity_replaced, List.sum_nil,
      Nat.cast_zero, zero_mul, add_zero]
    exact mul_nonneg (by positivity) hc
  | @refund a t h ih =>
    obtain ⟨hq, hcp, hf, hf0, hineq⟩ := ih
    unfold add_supplier_refund
    split_ifs with h1 h2 h3
    · exact ⟨hq, hcp, hf, hf0, hineq⟩
    · exact ⟨hq, hcp, hf, hf0, hineq⟩
    · exact ⟨hq, hcp, hf, hf0, hineq⟩
    · push_neg at h1 h2 h3
      unfold ReturnState.value_pending_action at h1 h3
      refine ⟨hq, hcp, ?_, ?_, ?_⟩
      · rw [amount_refunded_append]
        linarith
      · intro hc0
        exfalso
        have hT0 : t.total_value = 0 := by
          unfold ReturnState.total_value
          rw [hcp, hc0, mul_zero]
        have hV0 : t.value_of_items_replaced = 0 := by
          unfold ReturnState.value_of_items_replaced
          rw [hcp, hc0, mul_zero]
        rw [hT0, hV0] at h1
        omega
      · have hT : ({ t with refunds := t.refunds ++ [a] } : ReturnState).total_value
            = t.total_value := rfl
        have hV : ({ t with refunds := t.refunds ++ [a] } : ReturnState).value_of_items_replaced
            = t.value_of_items_replaced := rfl
        rw [amount_refunded_append, hT, hV]
        omega
  | @replace n t h ih =>
    obtain ⟨hq, hcp, hf, hf0, hineq⟩ := ih
    unfold receive_replacement
    split_ifs with h1 h2 h3
    · exact ⟨hq, hcp, hf, hf0, hineq⟩
    · exact ⟨hq, hcp, hf, hf0, hineq⟩
    · exact ⟨hq, hcp, hf, hf0, hineq⟩
    · push_neg at h1 h2 h3
      have hF : ({ t with replaced := t.replaced ++ [n] } : ReturnState).amount_refunded
          = t.amount_refunded := rfl
      have hT : ({ t with replaced := t.replaced ++ [n] } : ReturnState).total_value
          = t.total_value := rfl
      refine ⟨hq, hcp, hf, hf0, ?_⟩
      rw [value_replaced_append, hF, hT, hcp]
      by_cases hc0 : c = 0
      · have hf00 : t.amount_refunded = 0 := hf0 hc0
        have hT0 : t.total_value = 0 := by
          unfold ReturnState.total_value
          rw [hcp, hc0, mul_zero]
        have hV0 : t.value_of_items_replaced = 0 := by
          unfold ReturnState.value_of_items_replaced
          rw [hcp, hc0, mul_zero]
        rw [hc0, hT0, hV0, hf00, mul_zero]
        omega
      · have hcpos : 0 < c := lt_of_le_of_ne hc (Ne.symm hc0)
        unfold ReturnState.quantity_pending_action at h3
        rw [hcp, if_neg (not_le.mpr hcpos)] at h3
        have hnc : (n : ℤ) * c ≤ t.value_pending_action :=
          (Int.le_ediv_iff_mul_le hcpos).mp h3
        have hPeq : t.value_pending_action =
            t.total_value - t.value_of_items_replaced - t.amount_refunded := by
          unfold ReturnState.value_pending_action
          omega
        linarith [hnc, hPeq.symm.le]

lemma vpa_as_max (s : ReturnState) :
    s.value_pending_action =
      max (s.total_value - s.value_of_items_replaced - s.amount_refunded) 0 := rfl

lemma refund_vpa_mono (s : ReturnState) (a : ℤ) :
    (add_supplier_refund s a).value_pending_action ≤ s.value_pending_action := by
  unfold add_supplier_refund
  split_ifs with h1 h2 h3
  · exact le_refl _
  · exact le_refl _
  · exact le_refl _
  · push_neg at h2
    have hT : ({ s with refunds := s.refunds ++ [a] } : ReturnState).total_value
        = s.total_value := rfl
    have hV : ({ s with refunds := s.refunds ++ [a] } : ReturnState).value_of_items_replaced
        = s.value_of_items_replaced := rfl
    rw [vpa_as_max, vpa_as_max, amount_refunded_append, hT, hV]
    omega

lemma replace_vpa_mono (s : ReturnState) (n : ℕ) (hcp : 0 ≤ s.cost_price) :
    (receive_replacement s n).value_pending_action ≤ s.value_pending_action := by
  unfold receive_replacement
  split_ifs with h1 h2 h3
  · exact le_refl _
  · exact le_refl _
  · exact le_refl _
  · have hF : ({ s with replaced := s.replaced ++ [n] } : ReturnState).amount_refunded
        = s.amount_refunded := rfl
    have hT : ({ s with replaced := s.replaced ++ [n] } : ReturnState).total_value
        = s.total_value := rfl
    rw [vpa_as_max, vpa_as_max, value_replaced_append, hF, hT]
    have hn : 0 ≤ (n : ℤ) * s.cost_price := mul_nonneg (by positivity) hcp
    omega

/-- C5 (amended: the batch's `cost_price` must be non-negative): for every
`PurchaseReturn` on a batch with non-negative `cost_price`, in every state
reachable through the guarded operations (refund with
`amount ≤ value_pending_action`, replacement with
`quantity ≤ quantity_pending_action`),
`value_of_items_replaced + amount_refunded ≤ total_value`, and recording a
further refund or replacement never increases `value_pending_action`. -/
theorem return_value_conservation {q : ℕ} {c : ℤ} (hc : 0 ≤ c) (a : ℤ) (n : ℕ)
    {s : ReturnState} (h : ReturnReachable q c s) :
    s.value_of_items_replaced + s.amount_refunded ≤ s.total_value ∧
      (add_supplier_refund s a).value_pending_action ≤ s.value_pending_action ∧
      (receive_replacement s n).value_pending_action ≤ s.value_pending_action := by
  obtain ⟨hq, hcp, hf, hf0, hineq⟩ := return_invariant hc h
  exact ⟨hineq, refund_vpa_mono s a, replace_vpa_mono s n (hcp ▸ hc)⟩

/-- A return of 20 units of a batch with a negative final cost per unit
(-10.00; reachable because `ReceiveStockForm` caps `discount_percentage`
from neither above nor below), after a partial replacement of 10 units. -/
def negCostReturnState : ReturnState :=
  receive_replacement
    { quantity := 20, cost_price := -1000, replaced := [], refunds := [] } 10

/-- C5 counterexample: on a batch with negative `cost_price`, a state
reachable through the guarded operations violates
`value_of_items_replaced + amount_refunded ≤ total_value`. -/
theorem return_value_counterexample :
    ReturnReachable 20 (-1000) negCostReturnState ∧
      ¬ (negCostReturnState.value_of_items_replaced +
            negCostReturnState.amount_refunded ≤ negCostReturnState.total_value) :=
  ⟨ReturnReachable.replace 10 ReturnReachable.init, by decide⟩

/-- The scenario from the specification: return of 20 units at 10.00 cost,
refunded 200.00 in full. -/
def returnAfterRefund : ReturnState :=
  add_supplier_refund
    { quantity := 20, cost_price := 1000, replaced := [], refunds := [] } 20000

theorem return_value_conservation_witness :
    returnAfterRefund.value_of_items_replaced + returnAfterRefund.amount_refunded ≤
        returnAfterRefund.total_value ∧
      (add_supplier_refund returnAfterRefund 100).value_pending_action ≤
        returnAfterRefund.value_pending_action ∧
      (receive_replacement returnAfterRefund 5).value_pending_action ≤
        returnAfterRefund.value_pending_action :=
  return_value_conservation (by decide) 100 5
    (ReturnReachable.refund 20000 ReturnReachable.init)

/-- C6: for every `SupplierCredit` (created with positive `initial_amount`
and an equal balance), after any sequence of credit applications performed
through the guarded apply-credit operation, `balance` equals
`initial_amount` minus the sum of the applied amounts, and `is_fully_used`
holds exactly when `balance ≤ 0`. -/
theorem credit_balance_invariant {init : ℤ} (hpos : 0 < init)
    {c : SupplierCreditRow} (h : CreditReachable init c) :
    c.balance = c.initial_amount - c.applications.sum ∧
    (c.is_fully_used = true ↔ c.balance ≤ 0) :=
  ⟨(credit_invariant hpos h).2.2.1, (credit_invariant hpos h).2.2.2⟩

/-- A concrete credit of 200.00 with 150.00 applied to an order owing
500.00 (the scenario from the repository's own test suite). -/
def creditAfterOneApplication : SupplierCreditRow :=
  apply_supplier_credit
    { initial_amount := 20000, balance := 20000, is_fully_used := false,
      applications := [] }
    50000 15000

theorem credit_balance_invariant_witness :
    (0 : ℤ) < 20000 ∧
      (creditAfterOneApplication.balance =
          creditAfterOneApplication.initial_amount -
            creditAfterOneApplication.applications.sum ∧
        (creditAfterOneApplication.is_fully_used = true ↔
          creditAfterOneApplication.balance ≤ 0)) :=
  ⟨by decide,
    credit_balance_invariant (by decide)
      (CreditReachable.step 50000 15000 CreditReachable.init)⟩

/-! ## Stock ledger: batches, consumption, returns
(models.py `StockItem` / `StockItemTransaction`, signals.py
`update_stock_for_invoice_item`) -/

structure StockItemTransactionRow where
  /-- OneToOne key: the owning `InvoiceItem`. -/
  invoice_item : ℕ
  stock_item : ℕ
  quantity : ℕ
  deriving DecidableEq, Repr

structure StockRow where
  pk : ℕ
  /-- `StockItem.quantity` (received quantity, immutable after creation). -/
  quantity : ℕ
  deriving DecidableEq, Repr

structure LedgerReturnRow where
  stock_item : ℕ
  quantity : ℕ
  deriving DecidableEq, Repr

structure Ledger where
  stocks : List StockRow
  transactions : List StockItemTransactionRow
  returns : List LedgerReturnRow
  deriving DecidableEq, Repr

/-- Sum of transaction quantities charged against batch `b`. -/
def txSum (txs : List StockItemTransactionRow) (b : ℕ) : ℕ :=
  ((txs.filter (fun t => t.stock_item = b)).map (fun t => t.quantity)).sum

/-- Sum of return quantities charged against batch `b`. -/
def retSum (rs : List LedgerReturnRow) (b : ℕ) : ℕ :=
  ((rs.filter (fun r => r.stock_item = b)).map (fun r => r.quantity)).sum

/-- `StockItem.quantity_sold` (models.py line 158): aggregate sum of the
batch's transactions. -/
def Ledger.quantity_sold (L : Ledger) (b : ℕ) : ℕ := txSum L.transactions b

/-- `StockItem.quantity_returned` (models.py line 162): aggregate sum of the
batch's purchase returns. -/
def Ledger.quantity_returned (L : Ledger) (b : ℕ) : ℕ := retSum L.returns b

/-- `StockItem.quantity_available` (models.py line 176):
`quantity - quantity_sold - quantity_returned` (Python ints, may go
negative). -/
def Ledger.quantity_available (L : Ledger) (si : StockRow) : ℤ :=
  (si.quantity : ℤ) - (L.quantity_sold si.pk : ℤ) - (L.quantity_returned si.pk : ℤ)

/-- The `InvoiceItem` fields the stock signal reads. -/
structure InvoiceItemRec where
  pk : ℕ
  stock_item : Option ℕ
  quantity : ℕ
  deriving DecidableEq, Repr

/-- `StockItemTransaction.objects.filter(invoice_item__pk=...).delete()`. -/
def Ledger.delete_transactions_for (L : Ledger) (item_pk : ℕ) : Ledger :=
  { L with transactions :=
      L.transactions.filter (fun t => ¬ t.invoice_item = item_pk) }

/-- `StockItemTransaction.objects.update_or_create(invoice_item=..., defaults=...)`. -/
def Ledger.update_or_create_transaction (L : Ledger) (item_pk stock_pk qty : ℕ) :
    Ledger :=
  if L.transactions.any (fun t => t.invoice_item = item_pk) then
    { L with transactions := L.transactions.map (fun t =>
        if t.invoice_item = item_pk then
          { t with stock_item := stock_pk, quantity := qty }
        else t) }
  else
    { L with transactions := L.transactions ++ [⟨item_pk, stock_pk, qty⟩] }

/-- `update_stock_for_invoice_item` (signals.py lines 17-29).  `prev` is the
`_previous_state` cached by the `pre_save` signal (`none` on creation and on
deletion); `deleted` distinguishes the `post_delete` call. -/
def update_stock_for_invoice_item (L : Ledger) (inst : InvoiceItemRec)
    (prev : Option InvoiceItemRec) (deleted : Bool) : Ledger :=
  let L1 : Ledger :=
    match prev with
    | some p =>
      match p.stock_item with
      | some ps =>
        if inst.stock_item = none ∨ ¬ inst.stock_item = some ps then
          L.delete_transactions_for inst.pk
        else L
      | none => L
    | none => L
  let L2 : Ledger :=
    if deleted then
      match inst.stock_item with
      | some _ => L1.delete_transactions_for inst.pk
      | none => L1
    else L1
  if deleted then L2
  else
    match inst.stock_item with
    | some sp => L2.update_or_create_transaction inst.pk sp inst.quantity
    | none => L2

lemma txSum_append (xs ys : List StockItemTransactionRow) (b : ℕ) :
    txSum (xs ++ ys) b = txSum xs b + txSum ys b := by
  simp [txSum, List.filter_append]

lemma txSum_singleton (t : StockItemTransactionRow) (b : ℕ) :
    txSum [t] b = if t.stock_item = b then t.quantity else 0 := by
  by_cases h : t.stock_item = b <;> simp [txSum, h]

lemma retSum_append (xs ys : List LedgerReturnRow) (b : ℕ) :
    retSum (xs ++ ys) b = retSum xs b + retSum ys b := by
  simp [retSum, List.filter_append]

lemma retSum_singleton (r : LedgerReturnRow) (b : ℕ) :
    retSum [r] b = if r.stock_item = b then r.quantity else 0 := by
  by_cases h : r.stock_item = b <;> simp [retSum, h]

/-- C9: creating an `InvoiceItem` that consumes `q` units of a batch
decreases that batch's `quantity_available` by exactly `q`, realized as a
`StockItemTransaction` of equal quantity, and subsequently deleting that
`InvoiceItem` restores `quantity_available` to its previous value. -/
theorem invoice_item_stock_roundtrip (L : Ledger) (si : StockRow)
    (item_pk q : ℕ)
    (hfresh : ∀ t ∈ L.transactions, ¬ t.invoice_item = item_pk) :
    (update_stock_for_invoice_item L ⟨item_pk, some si.pk, q⟩ none false).transactions
        = L.transactions ++ [⟨item_pk, si.pk, q⟩] ∧
      (update_stock_for_invoice_item L ⟨item_pk, some si.pk, q⟩ none false).quantity_available si
        = L.quantity_available si - (q : ℤ) ∧
      (update_stock_for_invoice_item
          (update_stock_for_invoice_item L ⟨item_pk, some si.pk, q⟩ none false)
          ⟨item_pk, some si.pk, q⟩ none true).quantity_available si
        = L.quantity_available si := by
  have hany : (L.transactions.any fun t => decide (t.invoice_item = item_pk)) = false := by
    rw [List.any_eq_false]
    intro t ht
    simpa using hfresh t ht
  have hA : update_stock_for_invoice_item L ⟨item_pk, some si.pk, q⟩ none false
      = { L with transactions :=
            L.transactions ++ [(⟨item_pk, si.pk, q⟩ : StockItemTransactionRow)] } := by
    unfold update_stock_for_invoice_item Ledger.update_or_create_transaction
    simp [hany]
  have hfilter : L.transactions.filter (fun t => ¬ t.invoice_item = item_pk)
      = L.transactions := by
    rw [List.filter_eq_self]
    intro t ht
    simpa using hfresh t ht
  have hB : update_stock_for_invoice_item
        (update_stock_for_invoice_item L ⟨item_pk, some si.pk, q⟩ none false)
        ⟨item_pk, some si.pk, q⟩ none true
      = L := by
    rw [hA]
    unfold update_stock_for_invoice_item Ledger.delete_transactions_for
    simp only [List.filter_append]
    rw [hfilter]
    simp
  refine ⟨by rw [hA], ?_, by rw [hB]⟩
  rw [hA]
  unfold Ledger.quantity_available Ledger.quantity_sold Ledger.quantity_returned
  simp only
  rw [txSum_append, txSum_singleton]
  simp only [if_pos rfl]
  push_cast
  ring

/-- The specification's receive-and-consume scenario: a batch of 100 units,
an invoice item consuming 20, then its deletion. -/
def scenarioLedger : Ledger :=
  { stocks := [⟨1, 100⟩], transactions := [], returns := [] }

theorem invoice_item_stock_roundtrip_witness :
    (update_stock_for_invoice_item scenarioLedger ⟨7, some 1, 20⟩ none false).transactions
        = scenarioLedger.transactions ++ [⟨7, 1, 20⟩] ∧
      (update_stock_for_invoice_item scenarioLedger ⟨7, some 1, 20⟩ none false).quantity_available ⟨1, 100⟩
        = scenarioLedger.quantity_available ⟨1, 100⟩ - (20 : ℤ) ∧
      (update_stock_for_invoice_item
          (update_stock_for_invoice_item scenarioLedger ⟨7, some 1, 20⟩ none false)
          ⟨7, some 1, 20⟩ none true).quantity_available ⟨1, 100⟩
        = scenarioLedger.quantity_available ⟨1, 100⟩ :=
  invoice_item_stock_roundtrip scenarioLedger ⟨1, 100⟩ 7 20 (by simp [scenarioLedger])

lemma txSum_cons (t : StockItemTransactionRow) (ts : List StockItemTransactionRow) (b : ℕ) :
    txSum (t :: ts) b = (if t.stock_item = b then t.quantity else 0) + txSum ts b := by
  by_cases h : t.stock_item = b <;> simp [txSum, h]

lemma txSum_filter_le (txs : List StockItemTransactionRow)
    (p : StockItemTransactionRow → Bool) (b : ℕ) :
    txSum (txs.filter p) b ≤ txSum txs b := by
  induction txs with
  | nil => simp [txSum]
  | cons t ts ih =>
    rw [txSum_cons]
    by_cases hp : p t
    · rw [List.filter_cons_of_pos hp, txSum_cons]
      omega
    · rw [List.filter_cons_of_neg hp]
      omega

lemma txSum_eq_zero {txs : List StockItemTransactionRow} {b : ℕ}
    (h : ∀ t ∈ txs, ¬ t.stock_item = b) : txSum txs b = 0 := by
  unfold txSum
  have : txs.filter (fun t => t.stock_item = b) = [] := by
    simp only [List.filter_eq_nil_iff]
    intro t ht
    simpa using h t ht
  rw [this]
  simp

lemma retSum_eq_zero {rs : List LedgerReturnRow} {b : ℕ}
    (h : ∀ r ∈ rs, ¬ r.stock_item = b) : retSum rs b = 0 := by
  unfold retSum
  have : rs.filter (fun r => r.stock_item = b) = [] := by
    simp only [List.filter_eq_nil_iff]
    intro r hr
    simpa using h r hr
  rw [this]
  simp

lemma txSum_perm {xs ys : List StockItemTransactionRow} (h : xs.Perm ys) (b : ℕ) :
    txSum xs b = txSum ys b := by
  unfold txSum
  exact ((h.filter _).map _).sum_eq

/-- Replacing the transaction keyed by `k` in place (the `update` branch of
`update_or_create`) is, up to permutation, the same as deleting every
transaction keyed by `k` and appending the fresh row. -/
lemma map_update_perm (txs : List StockItemTransactionRow) (k sp q : ℕ)
    (hnodup : (txs.map (fun t => t.invoice_item)).Nodup)
    (hany : txs.any (fun t => t.invoice_item = k) = true) :
    (txs.map (fun t => if t.invoice_item = k then
        { t with stock_item := sp, quantity := q } else t)).Perm
      ((txs.filter (fun t => ¬ t.invoice_item = k)) ++
        [(⟨k, sp, q⟩ : StockItemTransactionRow)]) := by
  induction txs with
  | nil => simp at hany
  | cons t ts ih =>
    obtain ⟨ti, tsi, tq⟩ := t
    simp only [List.map_cons, List.nodup_cons] at hnodup
    obtain ⟨hk, hnd⟩ := hnodup
    by_cases ht : ti = k
    · subst ht
      have hrest : ∀ u ∈ ts, ¬ u.invoice_item = ti := by
        intro u hu he
        exact hk (he ▸ List.mem_map_of_mem _ hu)
      have hmapid : ts.map (fun u => if u.invoice_item = ti then
          { u with stock_item := sp, quantity := q } else u) = ts := by
        have h2 : ts.map (fun u => if u.invoice_item = ti then
            { u with stock_item := sp, quantity := q } else u) = ts.map id :=
          List.map_congr_left (fun u hu => by rw [if_neg (hrest u hu)]; rfl)
        rw [h2, List.map_id]
      have hfilt : (List.filter (fun t => ¬ t.invoice_item = ti)
          (⟨ti, tsi, tq⟩ :: ts)) = ts := by
        rw [List.filter_cons_of_neg (by simp)]
        rw [List.filter_eq_self]
        intro u hu
        simpa using hrest u hu
      rw [List.map_cons, hmapid, hfilt, if_pos rfl]
      exact (List.perm_append_singleton _ _).symm
    · have hany2 : ts.any (fun t => t.invoice_item = k) = true := by
        simp only [List.any_cons] at hany
        rcases Bool.or_eq_true_iff.mp hany with h | h
        · exact absurd (by simpa using h) ht
        · exact h
      have hfilt : (List.filter (fun t => ¬ t.invoice_item = k)
          (⟨ti, tsi, tq⟩ :: ts)) =
          ⟨ti, tsi, tq⟩ :: ts.filter (fun t => ¬ t.invoice_item = k) :=
        List.filter_cons_of_pos (by simpa using ht)
      rw [List.map_cons, hfilt, if_neg ht, List.cons_append]
      exact (ih hnd hany2).cons _

lemma update_or_create_perm (L : Ledger) (k sp q : ℕ)
    (hnodup : (L.transactions.map (fun t => t.invoice_item)).Nodup) :
    (L.update_or_create_transaction k sp q).transactions.Perm
      ((L.transactions.filter (fun t => ¬ t.invoice_item = k)) ++
        [(⟨k, sp, q⟩ : StockItemTransactionRow)]) := by
  unfold Ledger.update_or_create_transaction
  by_cases hany : L.transactions.any (fun t => t.invoice_item = k) = true
  · rw [if_pos hany]
    exact map_update_perm L.transactions k sp q hnodup hany
  · rw [if_neg hany]
    have hfresh : ∀ t ∈ L.transactions, ¬ t.invoice_item = k := by
      rw [Bool.not_eq_true, List.any_eq_false] at hany
      intro t ht
      simpa using hany t ht
    have : L.transactions.filter (fun t => ¬ t.invoice_item = k)
        = L.transactions := by
      rw [List.filter_eq_self]
      intro t ht
      simpa using hfresh t ht
    rw [this]

lemma update_create_eq (L : Ledger) (item_pk sp q : ℕ)
    (hfresh : ∀ t ∈ L.transactions, ¬ t.invoice_item = item_pk) :
    update_stock_for_invoice_item L ⟨item_pk, some sp, q⟩ none false
      = { L with transactions :=
          L.transactions ++ [(⟨item_pk, sp, q⟩ : StockItemTransactionRow)] } := by
  have hany : (L.transactions.any fun t => decide (t.invoice_item = item_pk)) = false := by
    rw [List.any_eq_false]
    intro t ht
    simpa using hfresh t ht
  unfold update_stock_for_invoice_item Ledger.update_or_create_transaction
  simp [hany]

lemma update_delete_eq (L : Ledger) (item_pk stock_pk q : ℕ) :
    update_stock_for_invoice_item L ⟨item_pk, some stock_pk, q⟩ none true
      = L.delete_transactions_for item_pk := by
  unfold update_stock_for_invoice_item
  simp

lemma update_or_create_stocks (L : Ledger) (k sp q : ℕ) :
    (L.update_or_create_transaction k sp q).stocks = L.stocks := by
  unfold Ledger.update_or_create_transaction
  split <;> rfl

lemma update_or_create_returns (L : Ledger) (k sp q : ℕ) :
    (L.update_or_create_transaction k sp q).returns = L.returns := by
  unfold Ledger.update_or_create_transaction
  split <;> rfl

/-- Effect of saving an edited `InvoiceItem` (previous state cached by the
`pre_save` signal): the stocks and returns are untouched, and the
transaction list is, up to permutation, the previous list with the item's
transaction(s) removed and the fresh one appended. -/
lemma update_edit_spec (L : Ledger) (k psi pq sp q : ℕ)
    (hnodup : (L.transactions.map (fun t => t.invoice_item)).Nodup) :
    (update_stock_for_invoice_item L ⟨k, some sp, q⟩ (some ⟨k, some psi, pq⟩) false).stocks
        = L.stocks ∧
      (update_stock_for_invoice_item L ⟨k, some sp, q⟩ (some ⟨k, some psi, pq⟩) false).returns
        = L.returns ∧
      (update_stock_for_invoice_item L ⟨k, some sp, q⟩ (some ⟨k, some psi, pq⟩) false).transactions.Perm
        ((L.transactions.filter (fun t => ¬ t.invoice_item = k)) ++
          [(⟨k, sp, q⟩ : StockItemTransactionRow)]) := by
  by_cases hsp : sp = psi
  · have hcond : ¬ ((some sp = (none : Option ℕ)) ∨ ¬ (some sp = some psi)) := by
      simp [hsp]
    have heq : update_stock_for_invoice_item L ⟨k, some sp, q⟩ (some ⟨k, some psi, pq⟩) false
        = L.update_or_create_transaction k sp q := by
      unfold update_stock_for_invoice_item
      simp [hsp]
    rw [heq]
    exact ⟨update_or_create_stocks L k sp q, update_or_create_returns L k sp q,
      update_or_create_perm L k sp q hnodup⟩
  · have heq : update_stock_for_invoice_item L ⟨k, some sp, q⟩ (some ⟨k, some psi, pq⟩) false
        = (L.delete_transactions_for k).update_or_create_transaction k sp q := by
      unfold update_stock_for_invoice_item
      simp [hsp]
    have hdel : ∀ t ∈ (L.delete_transactions_for k).transactions,
        ¬ t.invoice_item = k := by
      intro t ht
      have := List.of_mem_filter ht
      simpa using this
    have hany : ((L.delete_transactions_for k).transactions.any
        fun t => decide (t.invoice_item = k)) = false := by
      rw [List.any_eq_false]
      intro t ht
      simpa using hdel t ht
    rw [heq]
    unfold Ledger.update_or_create_transaction
    rw [if_neg (by simp [hany])]
    refine ⟨rfl, rfl, ?_⟩
    have hff : (L.delete_transactions_for k).transactions.filter
        (fun t => ¬ t.invoice_item = k) = (L.delete_transactions_for k).transactions := by
      rw [List.filter_eq_self]
      intro t ht
      simpa using hdel t ht
    exact List.Perm.refl _

/-- One application-level operation touching the stock ledger, as the
views/forms/signals implement it.  `guarded = true` additionally imposes the
availability bound on invoice-item consumption — a bound the code does NOT
enforce (`InvoiceItemForm` validates no stock availability); every other
hypothesis is a guard of the code itself (form validation or database key
uniqueness). -/
inductive AppStep (guarded : Bool) : Ledger → Ledger → Prop where
  | receive_batch (L : Ledger) (pk qty : ℕ)
      (hfresh : ∀ s0 ∈ L.stocks, ¬ s0.pk = pk) :
      AppStep guarded L { L with stocks := L.stocks ++ [⟨pk, qty⟩] }
  | create_invoice_item (L : Ledger) (item_pk : ℕ) (si : StockRow) (qty : ℕ)
      (hq : 1 ≤ qty) (hsi : si ∈ L.stocks)
      (hfresh : ∀ t ∈ L.transactions, ¬ t.invoice_item = item_pk)
      (hguard : guarded = true → (qty : ℤ) ≤ L.quantity_available si) :
      AppStep guarded L
        (update_stock_for_invoice_item L ⟨item_pk, some si.pk, qty⟩ none false)
  | edit_invoice_item (L : Ledger) (prev : StockItemTransactionRow) (si : StockRow) (qty : ℕ)
      (hq : 1 ≤ qty) (hsi : si ∈ L.stocks) (hprev : prev ∈ L.transactions)
      (hguard : guarded = true →
        (qty : ℤ) ≤ (L.delete_transactions_for prev.invoice_item).quantity_available si) :
      AppStep guarded L
        (update_stock_for_invoice_item L ⟨prev.invoice_item, some si.pk, qty⟩
          (some ⟨prev.invoice_item, some prev.stock_item, prev.quantity⟩) false)
  | delete_invoice_item (L : Ledger) (item_pk stock_pk qty : ℕ) :
      AppStep guarded L
        (update_stock_for_invoice_item L ⟨item_pk, some stock_pk, qty⟩ none true)
  | create_return (L : Ledger) (si : StockRow) (qty : ℕ) (hsi : si ∈ L.stocks)
      (hqty : qty = 0 ∨ (qty : ℤ) ≤ L.quantity_available si) :
      AppStep guarded L { L with returns := L.returns ++ [⟨si.pk, qty⟩] }
  | receive_replacement_batch (L : Ledger) (pk qty : ℕ)
      (hfresh : ∀ s0 ∈ L.stocks, ¬ s0.pk = pk) :
      AppStep guarded L { L with stocks := L.stocks ++ [⟨pk, qty⟩] }

/-- Ledger states reachable from the empty database through the
application's operations. -/
inductive AppReachable (guarded : Bool) : Ledger → Prop where
  | init : AppReachable guarded { stocks := [], transactions := [], returns := [] }
  | step {L L' : Ledger} : AppReachable guarded L → AppStep guarded L L' →
      AppReachable guarded L'

def LedgerInv (L : Ledger) : Prop :=
  (L.stocks.map (fun s0 => s0.pk)).Nodup ∧
    (L.transactions.map (fun t => t.invoice_item)).Nodup ∧
    (∀ t ∈ L.transactions, ∃ s0 ∈ L.stocks, t.stock_item = s0.pk) ∧
    (∀ r ∈ L.returns, ∃ s0 ∈ L.stocks, r.stock_item = s0.pk) ∧
    ∀ si ∈ L.stocks,
      (L.quantity_sold si.pk : ℤ) + (L.quantity_returned si.pk : ℤ) ≤ (si.quantity : ℤ)

lemma stock_key_inj {L : Ledger} (hS : (L.stocks.map (fun s0 => s0.pk)).Nodup)
    {a b : StockRow} (ha : a ∈ L.stocks) (hb : b ∈ L.stocks) (hpk : a.pk = b.pk) :
    a = b :=
  List.inj_on_of_nodup_map hS ha hb hpk

lemma txSum_singleton_mk (i s q b : ℕ) :
    txSum [(⟨i, s, q⟩ : StockItemTransactionRow)] b = if s = b then q else 0 := by
  by_cases h : s = b <;> simp [txSum, h]

lemma retSum_singleton_mk (s q b : ℕ) :
    retSum [(⟨s, q⟩ : LedgerReturnRow)] b = if s = b then q else 0 := by
  by_cases h : s = b <;> simp [retSum, h]

lemma quantity_sold_eq (L : Ledger) (b : ℕ) :
    L.quantity_sold b = txSum L.transactions b := rfl

lemma quantity_returned_eq (L : Ledger) (b : ℕ) :
    L.quantity_returned b = retSum L.returns b := rfl

lemma quantity_available_eq (L : Ledger) (si : StockRow) :
    L.quantity_available si =
      (si.quantity : ℤ) - (txSum L.transactions si.pk : ℤ) -
        (retSum L.returns si.pk : ℤ) := rfl

lemma delete_tx_eq (L : Ledger) (k : ℕ) :
    (L.delete_transactions_for k).transactions
      = L.transactions.filter (fun t => ¬ t.invoice_item = k) := rfl

lemma delete_ret_eq (L : Ledger) (k : ℕ) :
    (L.delete_transactions_for k).returns = L.returns := rfl

lemma ledger_inv_add_stock {L : Ledger} (hI : LedgerInv L) (pk qty : ℕ)
    (hfresh : ∀ s0 ∈ L.stocks, ¬ s0.pk = pk) :
    LedgerInv { L with stocks := L.stocks ++ [⟨pk, qty⟩] } := by
  obtain ⟨hS, hT, hTr, hRr, hQ⟩ := hI
  refine ⟨?_, hT, ?_, ?_, ?_⟩
  · rw [List.map_append]
    apply List.Nodup.append hS (by simp)
    intro a ha hb
    simp only [List.map_cons, List.map_nil, List.mem_singleton] at hb
    subst hb
    obtain ⟨s0, hs0, hpk⟩ := List.mem_map.mp ha
    exact hfresh s0 hs0 hpk
  · intro t ht
    obtain ⟨s0, hs0, he⟩ := hTr t ht
    exact ⟨s0, List.mem_append_left _ hs0, he⟩
  · intro r hr
    obtain ⟨s0, hs0, he⟩ := hRr r hr
    exact ⟨s0, List.mem_append_left _ hs0, he⟩
  · intro si hsi
    rcases List.mem_append.mp hsi with h | h
    · exact hQ si h
    · simp only [List.mem_singleton] at h
      subst h
      have hsold : txSum L.transactions pk = 0 := by
        apply txSum_eq_zero
        intro t ht he
        obtain ⟨s0, hs0, he0⟩ := hTr t ht
        exact hfresh s0 hs0 (by rw [← he0, he])
      have hret : retSum L.returns pk = 0 := by
        apply retSum_eq_zero
        intro r hr he
        obtain ⟨s0, hs0, he0⟩ := hRr r hr
        exact hfresh s0 hs0 (by rw [← he0, he])
      show (txSum L.transactions pk : ℤ) + (retSum L.returns pk : ℤ) ≤ ((qty : ℕ) : ℤ)
      rw [hsold, hret]
      simp

lemma ledger_inv_step {L L' : Ledger} (hs : AppStep true L L') (hI : LedgerInv L) :
    LedgerInv L' := by
  obtain ⟨hS, hT, hTr, hRr, hQ⟩ := hI
  cases hs with
  | receive_batch pk qty hfresh =>
    exact ledger_inv_add_stock ⟨hS, hT, hTr, hRr, hQ⟩ pk qty hfresh
  | receive_replacement_batch pk qty hfresh =>
    exact ledger_inv_add_stock ⟨hS, hT, hTr, hRr, hQ⟩ pk qty hfresh
  | create_invoice_item item_pk si qty hq hsi hfresh hguard =>
    rw [update_create_eq L item_pk si.pk qty hfresh]
    refine ⟨hS, ?_, ?_, hRr, ?_⟩
    · rw [List.map_append]
      apply List.Nodup.append hT (by simp)
      intro a ha hb
      simp only [List.map_cons, List.map_nil, List.mem_singleton] at hb
      subst hb
      obtain ⟨t, ht, hk⟩ := List.mem_map.mp ha
      exact hfresh t ht hk
    · intro t ht
      rcases List.mem_append.mp ht with h | h
      · exact hTr t h
      · simp only [List.mem_singleton] at h
        subst h
        exact ⟨si, hsi, rfl⟩
    · intro b hb
      show (txSum (L.transactions ++
            [(⟨item_pk, si.pk, qty⟩ : StockItemTransactionRow)]) b.pk : ℤ) +
          (retSum L.returns b.pk : ℤ) ≤ (b.quantity : ℤ)
      rw [txSum_append, txSum_singleton_mk]
      by_cases hpk : si.pk = b.pk
      · have hbe : b = si := stock_key_inj hS hb hsi hpk.symm
        have hg := hguard rfl
        rw [quantity_available_eq] at hg
        rw [if_pos hpk, hbe]
        omega
      · rw [if_neg hpk]
        have h2 := hQ b hb
        rw [quantity_sold_eq, quantity_returned_eq] at h2
        omega
  | edit_invoice_item prev si qty hq hsi hprev hguard =>
    obtain ⟨hst, hrt, hperm⟩ :=
      update_edit_spec L prev.invoice_item prev.stock_item prev.quantity si.pk qty hT
    refine ⟨?_, ?_, ?_, ?_, ?_⟩
    · rw [hst]
      exact hS
    · have hkeys := hperm.map (fun t => t.invoice_item)
      rw [hkeys.nodup_iff]
      rw [List.map_append]
      apply List.Nodup.append (hT.sublist ((List.filter_sublist _).map _)) (by simp)
      intro a ha hb
      simp only [List.map_cons, List.map_nil, List.mem_singleton] at hb
      subst hb
      obtain ⟨t, ht, hk⟩ := List.mem_map.mp ha
      have := List.of_mem_filter ht
      simp only [decide_not, Bool.not_eq_true', decide_eq_false_iff_not] at this
      exact this hk
    · intro t ht
      rw [hst]
      rcases List.mem_append.mp (hperm.mem_iff.mp ht) with h | h
      · exact hTr t (List.mem_of_mem_filter h)
      · simp only [List.mem_singleton] at h
        subst h
        exact ⟨si, hsi, rfl⟩
    · intro r hr
      rw [hst]
      rw [hrt] at hr
      exact hRr r hr
    · intro b hb
      rw [hst] at hb
      show (txSum _ b.pk : ℤ) + (retSum _ b.pk : ℤ) ≤ (b.quantity : ℤ)
      rw [txSum_perm hperm, hrt, txSum_append, txSum_singleton_mk]
      by_cases hpk : si.pk = b.pk
      · have hbe : b = si := stock_key_inj hS hb hsi hpk.symm
        have hg := hguard rfl
        rw [quantity_available_eq, delete_tx_eq, delete_ret_eq] at hg
        rw [if_pos hpk, hbe]
        omega
      · rw [if_neg hpk]
        have h1 := txSum_filter_le L.transactions
          (fun t => decide (¬ t.invoice_item = prev.invoice_item)) b.pk
        have h2 := hQ b hb
        rw [quantity_sold_eq, quantity_returned_eq] at h2
        omega
  | delete_invoice_item item_pk stock_pk qty =>
    rw [update_delete_eq]
    refine ⟨hS, hT.sublist ((List.filter_sublist _).map _), ?_, hRr, ?_⟩
    · intro t ht
      exact hTr t (List.mem_of_mem_filter ht)
    · intro b hb
      show (txSum (L.transactions.filter
            (fun t => ¬ t.invoice_item = item_pk)) b.pk : ℤ) +
          (retSum L.returns b.pk : ℤ) ≤ (b.quantity : ℤ)
      have h1 := txSum_filter_le L.transactions
        (fun t => decide (¬ t.invoice_item = item_pk)) b.pk
      have h2 := hQ b hb
      rw [quantity_sold_eq, quantity_returned_eq] at h2
      omega
  | create_return si qty hsi hqty =>
    refine ⟨hS, hT, hTr, ?_, ?_⟩
    · intro r hr
      rcases List.mem_append.mp hr with h | h
      · exact hRr r h
      · simp only [List.mem_singleton] at h
        subst h
        exact ⟨si, hsi, rfl⟩
    · intro b hb
      show (txSum L.transactions b.pk : ℤ) +
          (retSum (L.returns ++ [(⟨si.pk, qty⟩ : LedgerReturnRow)]) b.pk : ℤ)
          ≤ (b.quantity : ℤ)
      rw [retSum_append, retSum_singleton_mk]
      by_cases hpk : si.pk = b.pk
      · have hbe : b = si := stock_key_inj hS hb hsi hpk.symm
        rw [if_pos hpk, hbe]
        rcases hqty with h0 | hle
        · subst h0
          have h2 := hQ si hsi
          rw [quantity_sold_eq, quantity_returned_eq] at h2
          omega
        · rw [quantity_available_eq] at hle
          omega
      · rw [if_neg hpk]
        have h2 := hQ b hb
        rw [quantity_sold_eq, quantity_returned_eq] at h2
        omega

lemma reachable_inv {L : Ledger} (h : AppReachable true L) : LedgerInv L := by
  induction h with
  | init => exact ⟨by simp, by simp, by simp, by simp, by simp⟩
  | step h hs ih => exact ledger_inv_step hs ih

/-- C1 (amended: invoice-item consumption must additionally be limited to
the batch's current availability, a bound the code's `InvoiceItemForm` does
not enforce): for every `StockItem`, in every state reachable through the
application's operations with invoice-item consumption so limited,
`quantity_sold + quantity_returned ≤ quantity`, i.e. `quantity_available`
is never negative. -/
theorem stock_quantity_conservation {L : Ledger} (h : AppReachable true L)
    (si : StockRow) (hsi : si ∈ L.stocks) :
    (L.quantity_sold si.pk : ℤ) + (L.quantity_returned si.pk : ℤ) ≤ (si.quantity : ℤ) ∧
      0 ≤ L.quantity_available si := by
  have hq := (reachable_inv h).2.2.2.2 si hsi
  refine ⟨hq, ?_⟩
  rw [quantity_available_eq]
  rw [quantity_sold_eq, quantity_returned_eq] at hq
  omega

/-- A single batch of 100 units. -/
def oneBatchLedger : Ledger :=
  { stocks := [⟨1, 100⟩], transactions := [], returns := [] }

/-- `oneBatchLedger` after an invoice item consuming 150 units from the
batch of 100 — a submission `InvoiceItemForm` accepts, since the form
validates quantity only against `MinValueValidator(1)`. -/
def overdrawnLedger : Ledger :=
  update_stock_for_invoice_item oneBatchLedger ⟨1, some 1, 150⟩ none false

/-- C1 counterexample: through the operations exactly as the code guards
them (no availability bound on invoice items), a state is reachable in
which a batch's `quantity_available` is negative. -/
theorem stock_quantity_counterexample :
    AppReachable false overdrawnLedger ∧
      (⟨1, 100⟩ : StockRow) ∈ overdrawnLedger.stocks ∧
      ¬ (0 ≤ overdrawnLedger.quantity_available ⟨1, 100⟩) := by
  refine ⟨?_, by decide, by decide⟩
  have h1 : AppReachable false oneBatchLedger :=
    AppReachable.step AppReachable.init
      (AppStep.receive_batch { stocks := [], transactions := [], returns := [] }
        1 100 (by simp))
  exact AppReachable.step h1
    (AppStep.create_invoice_item oneBatchLedger 1 ⟨1, 100⟩ 150 (by decide)
      (by decide) (by simp [oneBatchLedger]) (fun hgf => by cases hgf))

/-- `oneBatchLedger` after a guarded invoice item consuming 20 units. -/
def consumedLedger : Ledger :=
  update_stock_for_invoice_item oneBatchLedger ⟨1, some 1, 20⟩ none false

theorem stock_quantity_conservation_witness :
    (consumedLedger.quantity_sold 1 : ℤ) + (consumedLedger.quantity_returned 1 : ℤ)
        ≤ ((100 : ℕ) : ℤ) ∧
      0 ≤ consumedLedger.quantity_available ⟨1, 100⟩ :=
  stock_quantity_conservation
    (AppReachable.step
      (AppReachable.step AppReachable.init
        (AppStep.receive_batch { stocks := [], transactions := [], returns := [] }
          1 100 (by simp)))
      (AppStep.create_invoice_item oneBatchLedger 1 ⟨1, 100⟩ 20 (by decide)
        (by decide) (by simp [oneBatchLedger]) (fun _ => by decide)))
    ⟨1, 100⟩ (by decide)

/-! ## Invoices (models.py `Invoice`, lines 300-357) -/

structure InvoiceItemRow where
  quantity : ℕ
  /-- `unit_price` in cents (nullable model field). -/
  unit_price : Option ℤ
  /-- per-unit `discount` in cents. -/
  discount : ℤ
  deriving DecidableEq, Repr

structure InvoiceRow where
  /-- `none` for an unsaved invoice (`self.pk` is `None` before the first
  save). -/
  pk : Option ℕ
  status : String
  /-- the cached `total_amount` column. -/
  total_amount : ℤ
  /-- invoice-level `discount`, in cents. -/
  discount : ℤ
  items : List InvoiceItemRow
  /-- `InvoicePayment.amount` rows, in cents. -/
  payments : List ℤ
  /-- `Refund.amount` rows, in cents. -/
  refunds : List ℤ
  deriving DecidableEq, Repr

/-- `Invoice.calculate_total_amount` (models.py line 327):
`Σ quantity * Coalesce(unit_price, 0)`. -/
def InvoiceRow.calculate_total_amount (inv : InvoiceRow) : ℤ :=
  (inv.items.map (fun it => (it.quantity : ℤ) * (it.unit_price.getD 0))).sum

/-- `Invoice.total_discount` (models.py line 337):
`Σ (item.discount * quantity) + invoice.discount`. -/
def InvoiceRow.total_discount (inv : InvoiceRow) : ℤ :=
  (inv.items.map (fun it => it.discount * (it.quantity : ℤ))).sum + inv.discount

/-- `Invoice.net_amount` (models.py line 344): reads the cached
`total_amount` column. -/
def InvoiceRow.net_amount (inv : InvoiceRow) : ℤ :=
  inv.total_amount - inv.total_discount

/-- `Invoice.amount_paid` (models.py line 348). -/
def InvoiceRow.amount_paid (inv : InvoiceRow) : ℤ := inv.payments.sum

/-- `Invoice.total_refunded` (models.py line 352). -/
def InvoiceRow.total_refunded (inv : InvoiceRow) : ℤ := inv.refunds.sum

/-- `Invoice.balance_due` (models.py line 356). -/
def InvoiceRow.balance_due (inv : InvoiceRow) : ℤ :=
  inv.net_amount - inv.amount_paid + inv.total_refunded

/-- The write-through of `self.total_amount = self.calculate_total_amount()`
inside `Invoice.save`. -/
def InvoiceRow.recompute (inv : InvoiceRow) : InvoiceRow :=
  { inv with total_amount := inv.calculate_total_amount }

/-- `Invoice.save` (models.py lines 300-325).  The invoice-number generation
is omitted: it assigns only the `invoice_number` string and reads no
monetary or status field.  Totals are recomputed and the status derived only
when `self.pk` is set; a CANCELLED status disables the derivation. -/
def InvoiceRow.save (inv : InvoiceRow) : InvoiceRow :=
  match inv.pk with
  | none => inv
  | some _ =>
    if (inv.recompute).status ≠ "CANCELLED" then
      if (inv.recompute).net_amount - (inv.recompute).amount_paid
          + (inv.recompute).total_refunded ≤ 0 then
        { inv.recompute with status := "PAID" }
      else if 0 < (inv.recompute).amount_paid then
        { inv.recompute with status := "PARTIAL" }
      else { inv.recompute with status := "PENDING" }
    else inv.recompute

/-- The pure status derivation the specification describes: a function of
`balance_due` and `amount_paid` only. -/
def derive_status (balance_due amount_paid : ℤ) : String :=
  if balance_due ≤ 0 then "PAID"
  else if 0 < amount_paid then "PARTIAL"
  else "PENDING"

/-- C8 (amended: only saves of an already-persisted invoice — one whose
`pk` is set — derive the status; the first save leaves the status alone):
on every save of a persisted invoice whose status is not CANCELLED, the
resulting status is exactly `derive_status` of the saved invoice's
`balance_due = net_amount - amount_paid + total_refunded` and
`amount_paid`. -/
theorem invoice_status_derivation (inv : InvoiceRow) (k : ℕ)
    (hpk : inv.pk = some k) (hst : inv.status ≠ "CANCELLED") :
    (inv.save).status =
      derive_status (inv.save).balance_due (inv.save).amount_paid := by
  have hst2 : (inv.recompute).status ≠ "CANCELLED" := hst
  unfold InvoiceRow.save
  rw [hpk]
  dsimp only
  rw [if_pos hst2]
  by_cases h1 : (inv.recompute).net_amount - (inv.recompute).amount_paid
      + (inv.recompute).total_refunded ≤ 0
  · rw [if_pos h1]
    show "PAID" = derive_status ((inv.recompute).balance_due) ((inv.recompute).amount_paid)
    unfold derive_status InvoiceRow.balance_due
    rw [if_pos h1]
  · rw [if_neg h1]
    by_cases h2 : 0 < (inv.recompute).amount_paid
    · rw [if_pos h2]
      show "PARTIAL" = derive_status ((inv.recompute).balance_due) ((inv.recompute).amount_paid)
      unfold derive_status InvoiceRow.balance_due
      rw [if_neg h1, if_pos h2]
    · rw [if_neg h2]
      show "PENDING" = derive_status ((inv.recompute).balance_due) ((inv.recompute).amount_paid)
      unfold derive_status InvoiceRow.balance_due
      rw [if_neg h1, if_neg h2]

/-- A brand-new invoice (no primary key yet), empty, status DRAFT. -/
def freshInvoice : InvoiceRow :=
  { pk := none, status := "DRAFT", total_amount := 0, discount := 0,
    items := [], payments := [], refunds := [] }

/-- C8 counterexample: the first save of a new invoice performs no status
derivation (`Invoice.save` guards the whole recomputation with
`if self.pk:`), so a saved DRAFT invoice with zero balance keeps DRAFT even
though the derivation prescribes PAID. -/
theorem invoice_status_counterexample :
    freshInvoice.status ≠ "CANCELLED" ∧
      (freshInvoice.save).status = "DRAFT" ∧
      derive_status (freshInvoice.save).balance_due (freshInvoice.save).amount_paid
        = "PAID" ∧
      (freshInvoice.save).status ≠
        derive_status (freshInvoice.save).balance_due (freshInvoice.save).amount_paid := by
  refine ⟨by decide, rfl, rfl, by decide⟩

/-- A persisted invoice: one line of 100.00, fully paid. -/
def paidInvoice : InvoiceRow :=
  { pk := some 1, status := "PENDING", total_amount := 0, discount := 0,
    items := [{ quantity := 1, unit_price := some 10000, discount := 0 }],
    payments := [10000], refunds := [] }

theorem invoice_status_derivation_witness :
    (paidInvoice.save).status =
      derive_status (paidInvoice.save).balance_due (paidInvoice.save).amount_paid :=
  invoice_status_derivation paidInvoice 1 rfl (by decide)

/-! ## Supplier refunds create credits (signals.py `create_credit_on_refund`,
models.py `SupplierRefund.save`) -/

structure RefundRow where
  purchase_order : Option ℕ
  purchase_return : Option ℕ
  amount : ℤ
  deriving DecidableEq, Repr

structure ReturnRec where
  pk : ℕ
  /-- the return's `stock_item.supplier` (nullable FK). -/
  stock_item_supplier : Option ℕ
  deriving DecidableEq, Repr

structure PORec where
  pk : ℕ
  /-- `PurchaseOrder.supplier` (non-nullable FK). -/
  supplier : ℕ
  deriving DecidableEq, Repr

structure CreditRec where
  supplier : ℕ
  initial_amount : ℤ
  balance : ℤ
  notes : String
  deriving DecidableEq, Repr

/-- The supplier the signal determines: the linked purchase order's supplier
when present, else the linked return's stock item's supplier (which may be
null). -/
def determine_supplier (pos : List PORec) (rets : List ReturnRec)
    (refund : RefundRow) : Option ℕ :=
  match refund.purchase_order with
  | some p => (pos.find? (fun x => x.pk = p)).map (fun x => x.supplier)
  | none =>
    refund.purchase_return.bind (fun r =>
      (rets.find? (fun x => x.pk = r)).bind (fun x => x.stock_item_supplier))

/-- Signal `create_credit_on_refund` (signals.py lines 67-86), fired when a
`SupplierRefund` is created.  Result: the created credit; `none` when no
supplier could be determined (the signal's `if supplier:` guard); an error
when the notes f-string dereferences `instance.purchase_return.pk` on a
refund with no linked return (`AttributeError`, which aborts the enclosing
save transaction). -/
def create_credit_on_refund (pos : List PORec) (rets : List ReturnRec)
    (refund : RefundRow) : Except Unit (Option CreditRec) :=
  match determine_supplier pos rets refund with
  | none => Except.ok none
  | some sup =>
    match refund.purchase_return with
    | none => Except.error ()
    | some rpk =>
      Except.ok (some
        { supplier := sup, initial_amount := refund.amount,
          balance := refund.amount,
          notes := "Credit from refund for return #" ++ toString rpk })

/-- C7 (amended: a credit is created only when the signal can determine a
supplier — the purchase order's supplier if the refund has one, else the
return's stock item's supplier — and, when the supplier comes from the
purchase order, only if a purchase return is also linked): creating such a
SupplierRefund creates exactly one matching SupplierCredit with
`initial_amount = balance = amount`, issued to that supplier. -/
theorem refund_creates_credit (pos : List PORec) (rets : List ReturnRec)
    (refund : RefundRow) (sup rpk : ℕ)
    (hsup : determine_supplier pos rets refund = some sup)
    (hret : refund.purchase_return = some rpk) :
    create_credit_on_refund pos rets refund
      = Except.ok (some
          { supplier := sup, initial_amount := refund.amount,
            balance := refund.amount,
            notes := "Credit from refund for return #" ++ toString rpk }) := by
  unfold create_credit_on_refund
  rw [hsup, hret]

/-- A refund tied only to a purchase return whose batch has no supplier. -/
def orphanRefund : RefundRow :=
  { purchase_order := none, purchase_return := some 1, amount := 20000 }

/-- C7 counterexample: a SupplierRefund whose return's stock item has no
supplier (and with no linked purchase order) creates no SupplierCredit at
all: the signal's `if supplier:` guard skips creation. -/
theorem refund_credit_counterexample :
    create_credit_on_refund [] [{ pk := 1, stock_item_supplier := none }] orphanRefund
      = Except.ok none := rfl

theorem refund_creates_credit_witness :
    create_credit_on_refund [{ pk := 1, supplier := 5 }]
        [{ pk := 3, stock_item_supplier := some 5 }]
        { purchase_order := some 1, purchase_return := some 3, amount := 20000 }
      = Except.ok (some
          { supplier := 5, initial_amount := 20000, balance := 20000,
            notes := "Credit from refund for return #" ++ toString 3 }) :=
  refund_creates_credit [{ pk := 1, supplier := 5 }]
    [{ pk := 3, stock_item_supplier := some 5 }]
    { purchase_order := some 1, purchase_return := some 3, amount := 20000 }
    5 3 rfl rfl

/-! ## Receiving stock against a purchase order
(views.py `receive_purchase_order_view`, lines 274-339; forms.py
`ReceiveStockForm` / `BaseReceiveStockFormSet`) -/

/-- `Decimal.quantize(Decimal('0.01'))` with the default ROUND_HALF_EVEN
context: banker's rounding to an integer. -/
def roundHalfEvenZ (x : ℚ) : ℤ :=
  if x - Int.floor x < 1/2 then Int.floor x
  else if 1/2 < x - Int.floor x then Int.floor x + 1
  else if Int.floor x % 2 = 0 then Int.floor x else Int.floor x + 1

/-- Quantization to two decimal places with banker's rounding. -/
def quantize2 (x : ℚ) : ℚ := (roundHalfEvenZ (x * 100) : ℚ) / 100

structure RecvPOItem where
  pk : ℕ
  purchase_order : ℕ
  quantity : ℕ
  quantity_received : ℕ
  /-- `product_variant.price` (the MRP default). -/
  variant_price : ℚ
  /-- `product_variant.product.requires_expiry_tracking`. -/
  requires_expiry : Bool
  deriving DecidableEq, Repr

/-- A `StockItem` as created by the receive view. -/
structure RecvStock where
  purchase_order_item : Option ℕ
  quantity : ℕ
  mrp : ℚ
  base_cost_price : ℚ
  discount_percentage : ℚ
  gst_percentage : ℚ
  cost_price : ℚ
  batch_number : String
  expiry_date : Option ℤ
  date_received : ℤ
  deriving DecidableEq, Repr

/-- One cleaned `ReceiveStockForm` (one line of the submission). -/
structure ReceiveLine where
  purchase_order_item_id : ℕ
  quantity_to_receive : Option ℕ
  mrp : Option ℚ
  base_cost_price : Option ℚ
  discount_percentage : Option ℚ
  discount_amount : Option ℚ
  gst_percentage : Option ℚ
  batch_number : String
  /-- days since epoch; `none` = left blank. -/
  expiry_date : Option ℤ
  date_received : Option ℤ
  deriving DecidableEq, Repr

structure RecvState where
  /-- all `PurchaseOrderItem` rows. -/
  items : List RecvPOItem
  /-- all `StockItem` rows (only receive-relevant fields). -/
  stocks : List RecvStock
  deriving DecidableEq, Repr

/-- Python truthiness of an optional Decimal: present and non-zero. -/
def truthyQ (o : Option ℚ) : Bool :=
  match o with
  | some x => decide (¬ x = 0)
  | none => false

/-- `ReceiveStockForm` validation (forms.py lines 446-534): the `clean_*`
methods plus `clean`.  `po_item` is the `purchase_order_item` the formset
passes by position (absent for extra forms). -/
def receive_form_valid (ln : ReceiveLine) (po_item : Option RecvPOItem)
    (today now order_date : ℤ) : Bool :=
  -- IntegerField(min_value=1) on quantity_to_receive
  (match ln.quantity_to_receive with
   | some q => decide (1 ≤ q)
   | none => true) &&
  -- clean_expiry_date: no past expiry
  (match ln.expiry_date with
   | some e => decide (today ≤ e)
   | none => true) &&
  -- clean_date_received: not in the future, not before the order date
  (match ln.date_received with
   | some d =>
     decide (d ≤ now) &&
       (match po_item with
        | some _ => decide (order_date ≤ d)
        | none => true)
   | none => true) &&
  -- clean(): all checks are skipped when no quantity is being received
  (match ln.quantity_to_receive with
   | none => true
   | some qty =>
     if qty = 0 then true
     else
       -- expiry required for expiry-tracked products
       (match po_item with
        | some it => !it.requires_expiry || ln.expiry_date.isSome
        | none => true) &&
       -- `mrp = cleaned_data.get('mrp')`, defaulted from the variant price
       (let mrp : Option ℚ :=
          match ln.mrp with
          | some m => some m
          | none => po_item.map (fun it => it.variant_price)
        -- base cost and batch number are required (Python truthiness)
        truthyQ ln.base_cost_price &&
        decide (¬ ln.batch_number = "") &&
        -- base cost must not exceed MRP
        !(truthyQ ln.base_cost_price && truthyQ mrp &&
          decide (mrp.getD 0 < ln.base_cost_price.getD 0)) &&
        -- discount given as percentage or amount, not both
        !(truthyQ ln.discount_percentage && truthyQ ln.discount_amount &&
          decide (0 < ln.discount_percentage.getD 0) &&
          decide (0 < ln.discount_amount.getD 0)) &&
        -- an absolute discount cannot exceed the total base cost
        !(truthyQ ln.base_cost_price && truthyQ ln.discount_amount &&
          decide (ln.base_cost_price.getD 0 * (qty : ℚ) < ln.discount_amount.getD 0)) &&
        -- the final unit cost must not exceed MRP
        (if truthyQ ln.base_cost_price then
          let base_cost : ℚ := ln.base_cost_price.getD 0
          let fdp : ℚ :=
            match ln.discount_percentage with
            | some dp => dp
            | none =>
              match ln.discount_amount with
              | some da => if 0 < base_cost then da / (qty : ℚ) / base_cost * 100 else 0
              | none => 0
          let final_cost : ℚ :=
            base_cost * (1 - fdp / 100) * (1 + (ln.gst_percentage.getD 0) / 100)
          !(truthyQ mrp && decide (mrp.getD 0 < final_cost))
        else true)) &&
       -- cannot receive more than the remaining quantity
       (match po_item with
        | some it => decide (qty ≤ it.quantity - it.quantity_received)
        | none => true))

/-- `formset.is_valid()`: every form validates; `BaseReceiveStockFormSet`
pairs form `i` with `items_to_receive[i]`. -/
def formset_valid (lines : List ReceiveLine) (items_to_receive : List RecvPOItem)
    (today now order_date : ℤ) : Bool :=
  lines.enum.all (fun p =>
    receive_form_valid p.2 (items_to_receive.get? p.1) today now order_date)

/-- The body of the POST loop (views.py lines 289-334) for one form:
skip when no quantity is requested; `get_object_or_404` on the submitted
`purchase_order_item_id` (a miss raises, aborting the transaction);
`StockItem.objects.create` runs `full_clean`, which raises on a blank batch
number; otherwise one `StockItem` is created and the item's
`quantity_received` is incremented by the same quantity. -/
def process_line (s : RecvState) (ln : ReceiveLine) (now : ℤ) :
    Except Unit RecvState :=
  match ln.quantity_to_receive with
  | none => Except.ok s
  | some qty =>
    if qty = 0 then Except.ok s
    else
      match s.items.find? (fun it => it.pk = ln.purchase_order_item_id) with
      | none => Except.error ()
      | some po_item =>
        if ln.batch_number.trim = "" then Except.error ()
        else
          let base_cost : ℚ := ln.base_cost_price.getD 0
          let gst : ℚ := ln.gst_percentage.getD 0
          let fdp : ℚ :=
            match ln.discount_percentage with
            | some dp => dp
            | none =>
              match ln.discount_amount with
              | some da =>
                if 0 < base_cost then quantize2 (da / (qty : ℚ) / base_cost * 100)
                else 0
              | none => 0
          Except.ok
            { items := s.items.map (fun it =>
                if it.pk = ln.purchase_order_item_id then
                  { it with quantity_received := it.quantity_received + qty }
                else it),
              stocks := s.stocks ++ [{
                purchase_order_item := some po_item.pk,
                quantity := qty,
                mrp := ln.mrp.getD 0,
                base_cost_price := base_cost,
                discount_percentage := fdp,
                gst_percentage := gst,
                cost_price := quantize2 (base_cost * (1 - fdp / 100) * (1 + gst / 100)),
                batch_number := ln.batch_number,
                expiry_date := ln.expiry_date,
                date_received := ln.date_received.getD now }] }

/-- `receive_purchase_order_view`, POST branch: the whole loop runs inside
`@transaction.atomic`, so an exception anywhere leaves the database as it
was; an invalid formset re-renders without mutating. -/
def items_to_receive_of (s : RecvState) (po : ℕ) : List RecvPOItem :=
  s.items.filter (fun it => it.purchase_order = po && it.quantity_received < it.quantity)

def receive_purchase_order_post (s : RecvState) (po : ℕ) (lines : List ReceiveLine)
    (today now order_date : ℤ) : RecvState :=
  if (items_to_receive_of s po).isEmpty then s
  else if formset_valid lines (items_to_receive_of s po) today now order_date then
    match lines.foldlM (fun acc ln => process_line acc ln now) s with
    | Except.ok s2 => s2
    | Except.error _ => s
  else s

/-- A line carrying a positive quantity to receive. -/
def linePositive (ln : ReceiveLine) : Bool :=
  match ln.quantity_to_receive with
  | some q => decide (0 < q)
  | none => false

/-- Total received quantity recorded on the purchase-order item(s) with
primary key `pk`. -/
def recvOf (items : List RecvPOItem) (pk : ℕ) : ℕ :=
  ((items.filter (fun it => it.pk = pk)).map (fun it => it.quantity_received)).sum

/-- Total quantity of stock batches linked to the purchase-order item `pk`. -/
def stockQtyFor (stocks : List RecvStock) (pk : ℕ) : ℕ :=
  ((stocks.filter (fun st => st.purchase_order_item = some pk)).map
    (fun st => st.quantity)).sum

lemma recvOf_cons (it : RecvPOItem) (rest : List RecvPOItem) (pk : ℕ) :
    recvOf (it :: rest) pk
      = (if it.pk = pk then it.quantity_received else 0) + recvOf rest pk := by
  by_cases h : it.pk = pk <;> simp [recvOf, h]

lemma stockQtyFor_append (xs ys : List RecvStock) (pk : ℕ) :
    stockQtyFor (xs ++ ys) pk = stockQtyFor xs pk + stockQtyFor ys pk := by
  simp [stockQtyFor, List.filter_append]

lemma stockQtyFor_single (st : RecvStock) (pk : ℕ) :
    stockQtyFor [st] pk
      = if st.purchase_order_item = some pk then st.quantity else 0 := by
  by_cases h : st.purchase_order_item = some pk <;> simp [stockQtyFor, h]

lemma recvOf_update (items : List RecvPOItem) (k q : ℕ)
    (hnodup : (items.map (fun it => it.pk)).Nodup)
    (hmem : ∃ a ∈ items, a.pk = k) (pk : ℕ) :
    recvOf (items.map (fun it => if it.pk = k then
        { it with quantity_received := it.quantity_received + q } else it)) pk
      = recvOf items pk + (if k = pk then q else 0) := by
  induction items with
  | nil => simp at hmem
  | cons it rest ih =>
    simp only [List.map_cons, List.nodup_cons] at hnodup
    obtain ⟨hk, hnd⟩ := hnodup
    by_cases ht : it.pk = k
    · have hrest : ∀ u ∈ rest, ¬ u.pk = k := by
        intro u hu he
        have hmm : u.pk ∈ List.map (fun it => it.pk) rest :=
          List.mem_map_of_mem _ hu
        rw [he, ← ht] at hmm
        exact hk hmm
      have hmapid : rest.map (fun it => if it.pk = k then
          { it with quantity_received := it.quantity_received + q } else it) = rest := by
        have h2 : rest.map (fun it => if it.pk = k then
            { it with quantity_received := it.quantity_received + q } else it)
            = rest.map id :=
          List.map_congr_left (fun u hu => by rw [if_neg (hrest u hu)]; rfl)
        rw [h2, List.map_id]
      rw [List.map_cons, hmapid, if_pos ht, recvOf_cons, recvOf_cons]
      rw [show ({ it with quantity_received := it.quantity_received + q } : RecvPOItem).pk
            = it.pk from rfl, ht]
      by_cases hpk : k = pk
      · simp only [if_pos hpk]
        omega
      · simp only [if_neg hpk]
        omega
    · have hmem2 : ∃ a ∈ rest, a.pk = k := by
        obtain ⟨a, ha, hak⟩ := hmem
        rcases List.mem_cons.mp ha with he | ha2
        · exact absurd (he ▸ hak) ht
        · exact ⟨a, ha2, hak⟩
      rw [List.map_cons, if_neg ht, recvOf_cons, recvOf_cons, ih hnd hmem2]
      omega

lemma process_line_spec (t : RecvState) (ln : ReceiveLine) (now : ℤ) (t1 : RecvState)
    (hok : process_line t ln now = Except.ok t1)
    (hnodup : (t.items.map (fun it => it.pk)).Nodup) (pk : ℕ) :
    (t1.items.map (fun it => it.pk)) = (t.items.map (fun it => it.pk)) ∧
      t1.stocks.length = t.stocks.length + (if linePositive ln then 1 else 0) ∧
      (stockQtyFor t1.stocks pk : ℤ) - (stockQtyFor t.stocks pk : ℤ)
        = (recvOf t1.items pk : ℤ) - (recvOf t.items pk : ℤ) := by
  unfold process_line at hok
  unfold linePositive
  cases hq : ln.quantity_to_receive with
  | none =>
    simp only [hq] at hok
    obtain rfl : t = t1 := by simpa using hok
    simp
  | some qty =>
    simp only [hq] at hok
    by_cases h0 : qty = 0
    · rw [if_pos h0] at hok
      obtain rfl : t = t1 := by simpa using hok
      simp [h0]
    · rw [if_neg h0] at hok
      cases hfind : t.items.find? (fun it => it.pk = ln.purchase_order_item_id) with
      | none =>
        simp only [hfind] at hok
        exact Except.noConfusion hok
      | some po_item =>
        simp only [hfind] at hok
        by_cases hbn : ln.batch_number.trim = ""
        · rw [if_pos hbn] at hok
          exact absurd hok (by simp)
        · rw [if_neg hbn] at hok
          have hpo_pk : po_item.pk = ln.purchase_order_item_id := by
            have := List.find?_some hfind
            simpa using this
          have hmem : ∃ a ∈ t.items, a.pk = ln.purchase_order_item_id :=
            ⟨po_item, List.mem_of_find?_eq_some hfind, hpo_pk⟩
          obtain rfl := (by simpa using hok :
            ({ items := t.items.map (fun it =>
                  if it.pk = ln.purchase_order_item_id then
                    { it with quantity_received := it.quantity_received + qty }
                  else it),
               stocks := t.stocks ++ [{
                  purchase_order_item := some po_item.pk,
                  quantity := qty,
                  mrp := ln.mrp.getD 0,
                  base_cost_price := ln.base_cost_price.getD 0,
                  discount_percentage :=
                    match ln.discount_percentage with
                    | some dp => dp
                    | none =>
                      match ln.discount_amount with
                      | some da =>
                        if 0 < ln.base_cost_price.getD 0 then
                          quantize2 (da / (qty : ℚ) / ln.base_cost_price.getD 0 * 100)
                        else 0
                      | none => 0,
                  gst_percentage := ln.gst_percentage.getD 0,
                  cost_price := quantize2 (ln.base_cost_price.getD 0 *
                    (1 - (match ln.discount_percentage with
                      | some dp => dp
                      | none =>
                        match ln.discount_amount with
                        | some da =>
                          if 0 < ln.base_cost_price.getD 0 then
                            quantize2 (da / (qty : ℚ) / ln.base_cost_price.getD 0 * 100)
                          else 0
                        | none => 0) / 100) * (1 + (ln.gst_percentage.getD 0) / 100)),
                  batch_number := ln.batch_number,
                  expiry_date := ln.expiry_date,
                  date_received := ln.date_received.getD now }] } : RecvState) = t1)
          refine ⟨?_, ?_, ?_⟩
          · rw [List.map_map]
            apply List.map_congr_left
            intro a ha
            by_cases hc : a.pk = ln.purchase_order_item_id <;> simp [hc]
          · simp [h0, Nat.pos_of_ne_zero]
          · rw [stockQtyFor_append, stockQtyFor_single,
              recvOf_update t.items ln.purchase_order_item_id qty hnodup hmem pk]
            by_cases hc : po_item.pk = pk
            · rw [if_pos (by simp [hc]), if_pos (by rw [← hpo_pk]; exact hc)]
              push_cast
              ring
            · rw [if_neg (by simp [hc]), if_neg (by rw [← hpo_pk]; exact hc)]
              push_cast
              ring

lemma process_lines_spec (lines : List ReceiveLine) (now : ℤ) (pk : ℕ) :
    ∀ (t t1 : RecvState),
      lines.foldlM (fun acc ln => process_line acc ln now) t = Except.ok t1 →
      (t.items.map (fun it => it.pk)).Nodup →
      (t1.items.map (fun it => it.pk)) = (t.items.map (fun it => it.pk)) ∧
        t1.stocks.length = t.stocks.length + (lines.countP linePositive) ∧
        (stockQtyFor t1.stocks pk : ℤ) - (stockQtyFor t.stocks pk : ℤ)
          = (recvOf t1.items pk : ℤ) - (recvOf t.items pk : ℤ) := by
  induction lines with
  | nil =>
    intro t t1 hok hnd
    obtain rfl : t = t1 := by simpa [pure, Except.pure] using hok
    simp
  | cons ln rest ih =>
    intro t t1 hok hnd
    rw [List.foldlM_cons] at hok
    cases hstep : process_line t ln now with
    | error e =>
      rw [hstep] at hok
      exact Except.noConfusion hok
    | ok tmid =>
      rw [hstep] at hok
      have hok2 : rest.foldlM (fun acc ln => process_line acc ln now) tmid
          = Except.ok t1 := hok
      obtain ⟨hmap1, hlen1, hdiff1⟩ := process_line_spec t ln now tmid hstep hnd pk
      have hnd2 : (tmid.items.map (fun it => it.pk)).Nodup := hmap1 ▸ hnd
      obtain ⟨hmap2, hlen2, hdiff2⟩ := ih tmid t1 hok2 hnd2
      refine ⟨hmap2.trans hmap1, ?_, ?_⟩
      · rw [List.countP_cons]
        omega
      · omega

/-- C4: a single stock-receipt submission is atomic and keeps counters
matched: the resulting state is either unchanged (invalid formset, already
fully received, or an exception rolled back by `@transaction.atomic`) or
holds exactly one new `StockItem` per positive-quantity line; and in every
case, for every `PurchaseOrderItem`, the growth of the total batch quantity
linked to it equals the growth of its `quantity_received` counter (no
orphaned `StockItem`s, no mismatched counters). -/
theorem receive_stock_atomic (s : RecvState) (po : ℕ) (lines : List ReceiveLine)
    (today now order_date : ℤ) (pk : ℕ)
    (hnodup : (s.items.map (fun it => it.pk)).Nodup) :
    (receive_purchase_order_post s po lines today now order_date = s ∨
      (receive_purchase_order_post s po lines today now order_date).stocks.length
        = s.stocks.length + (lines.countP linePositive)) ∧
    (stockQtyFor (receive_purchase_order_post s po lines today now order_date).stocks pk : ℤ)
        - (stockQtyFor s.stocks pk : ℤ)
      = (recvOf (receive_purchase_order_post s po lines today now order_date).items pk : ℤ)
        - (recvOf s.items pk : ℤ) := by
  unfold receive_purchase_order_post
  split_ifs with h1 h2
  · exact ⟨Or.inl rfl, by omega⟩
  · cases hfold : lines.foldlM (fun acc ln => process_line acc ln now) s with
    | error e =>
      refine ⟨Or.inl rfl, ?_⟩
      show (stockQtyFor s.stocks pk : ℤ) - (stockQtyFor s.stocks pk : ℤ)
          = (recvOf s.items pk : ℤ) - (recvOf s.items pk : ℤ)
      omega
    | ok t1 =>
      obtain ⟨hmap, hlen, hdiff⟩ := process_lines_spec lines now pk s t1 hfold hnodup
      exact ⟨Or.inr hlen, hdiff⟩
  · exact ⟨Or.inl rfl, by omega⟩

/-- The specification's receive scenario: a purchase order with one item of
100 units, received in full at base cost 10.00, no discount, no GST. -/
def scenarioPOItem : RecvPOItem :=
  { pk := 1, purchase_order := 1, quantity := 100, quantity_received := 0,
    variant_price := 20, requires_expiry := false }

def scenarioRecvState : RecvState :=
  { items := [scenarioPOItem], stocks := [] }

def scenarioLine : ReceiveLine :=
  { purchase_order_item_id := 1, quantity_to_receive := some 100,
    mrp := some 20, base_cost_price := some 10, discount_percentage := none,
    discount_amount := none, gst_percentage := none, batch_number := "B1",
    expiry_date := none, date_received := none }

theorem receive_stock_atomic_witness :
    (receive_purchase_order_post scenarioRecvState 1 [scenarioLine] 0 0 0
        = scenarioRecvState ∨
      (receive_purchase_order_post scenarioRecvState 1 [scenarioLine] 0 0 0).stocks.length
        = scenarioRecvState.stocks.length + ([scenarioLine].countP linePositive)) ∧
    (stockQtyFor (receive_purchase_order_post scenarioRecvState 1 [scenarioLine] 0 0 0).stocks 1 : ℤ)
        - (stockQtyFor scenarioRecvState.stocks 1 : ℤ)
      = (recvOf (receive_purchase_order_post scenarioRecvState 1 [scenarioLine] 0 0 0).items 1 : ℤ)
        - (recvOf scenarioRecvState.items 1 : ℤ) :=
  receive_stock_atomic scenarioRecvState 1 [scenarioLine] 0 0 0 1
    (by simp [scenarioRecvState, scenarioPOItem])

/-! ## Nested return discovery and purchase-order totals
(models.py `PurchaseOrder._get_all_related_returns`, lines 463-486;
`PurchaseOrder.grand_total`, lines 488-493; `ReplacementItem.save`,
lines 696-721) -/

structure RetRow where
  pk : ℕ
  stock_item : ℕ
  purchase_order : Option ℕ
  deriving DecidableEq, Repr

structure ReplRow where
  pk : ℕ
  purchase_return : ℕ
  created_stock_item : Option ℕ
  deriving DecidableEq, Repr

structure GStockRow where
  pk : ℕ
  purchase_order_item : Option ℕ
  quantity : ℕ
  /-- `cost_price` in cents. -/
  cost_price : ℤ
  source : String
  deriving DecidableEq, Repr

structure GPOItem where
  pk : ℕ
  purchase_order : ℕ
  deriving DecidableEq, Repr

structure ReturnsDB where
  returns : List RetRow
  replacements : List ReplRow
  stocks : List GStockRow
  po_items : List GPOItem
  deriving DecidableEq, Repr

/-- The inner `for nr in nested_returns:` loop of
`_get_all_related_returns`: append each not-yet-processed return to
`all_returns` and `newly_found_returns` and mark its pk processed. -/
def collectNew : List RetRow → List RetRow → List RetRow → Finset ℕ →
    List RetRow × List RetRow × Finset ℕ
  | [], allR, newly, processed => (allR, newly, processed)
  | nr :: rest, allR, newly, processed =>
    if nr.pk ∈ processed then collectNew rest allR newly processed
    else collectNew rest (allR ++ [nr]) (newly ++ [nr]) (insert nr.pk processed)

/-- The sublist of `nested` actually appended by `collectNew` (first
occurrence of each unprocessed pk). -/
def dedupNew : List RetRow → Finset ℕ → List RetRow
  | [], _ => []
  | nr :: rest, processed =>
    if nr.pk ∈ processed then dedupNew rest processed
    else nr :: dedupNew rest (insert nr.pk processed)

/-- The loop-local `replacements` queryset:
`ReplacementItem.objects.filter(purchase_return__in=returns_to_check)`. -/
def repsOf (db : ReturnsDB) (toCheck : List RetRow) : List ReplRow :=
  db.replacements.filter (fun rp => toCheck.any (fun r => r.pk = rp.purchase_return))

/-- The loop-local `replacement_stock_items`:
`[rep.created_stock_item for rep in replacements if rep.created_stock_item]`. -/
def repStocksOf (db : ReturnsDB) (toCheck : List RetRow) : List ℕ :=
  (repsOf db toCheck).filterMap (fun rp => rp.created_stock_item)

/-- The loop-local `nested_returns` queryset:
`PurchaseReturn.objects.filter(stock_item__in=...).exclude(pk__in=processed)`. -/
def nestedOf (db : ReturnsDB) (toCheck : List RetRow) (processed : Finset ℕ) :
    List RetRow :=
  db.returns.filter (fun r =>
    (repStocksOf db toCheck).contains r.stock_item && ! decide (r.pk ∈ processed))

/-- The `while returns_to_check:` loop of `_get_all_related_returns`,
written with explicit fuel; the loop adds at least one new return pk per
iteration, so `db.returns.length + 1` fuel always suffices (proved below as
the stabilization part of the specification theorem). -/
def bfsLoop (db : ReturnsDB) : ℕ → List RetRow → List RetRow → Finset ℕ → List RetRow
  | 0, allR, _, _ => allR
  | fuel + 1, allR, toCheck, processed =>
    if toCheck.isEmpty then allR
    else if (repsOf db toCheck).isEmpty then allR
    else if (repStocksOf db toCheck).isEmpty then allR
    else
      match collectNew (nestedOf db toCheck processed) allR [] processed with
      | (allR2, newly, processed2) =>
        if newly.isEmpty then allR2
        else bfsLoop db fuel allR2 newly processed2

/-- `PurchaseOrder._get_all_related_returns` (models.py lines 463-486). -/
def get_all_related_returns (db : ReturnsDB) (po : ℕ) : List RetRow :=
  bfsLoop db (db.returns.length + 1)
    (db.returns.filter (fun r => r.purchase_order = some po))
    (db.returns.filter (fun r => r.purchase_order = some po))
    ((db.returns.filter (fun r => r.purchase_order = some po)).map
      (fun r => r.pk)).toFinset

/-- A return related to the purchase order: one of its direct returns, or a
return whose batch is the replacement batch created for an already-related
return. -/
inductive RelatedReturn (db : ReturnsDB) (po : ℕ) : RetRow → Prop where
  | direct {r : RetRow} : r ∈ db.returns → r.purchase_order = some po →
      RelatedReturn db po r
  | nested {r r2 : RetRow} {rp : ReplRow} {s : ℕ} :
      RelatedReturn db po r → rp ∈ db.replacements →
      rp.purchase_return = r.pk → rp.created_stock_item = some s →
      r2 ∈ db.returns → r2.stock_item = s →
      RelatedReturn db po r2

/-- One replacement edge: `r2` is a return against a replacement batch
created for return `r`. -/
def SuccR (db : ReturnsDB) (r r2 : RetRow) : Prop :=
  ∃ rp ∈ db.replacements, rp.purchase_return = r.pk ∧
    ∃ s, rp.created_stock_item = some s ∧ r2 ∈ db.returns ∧ r2.stock_item = s

lemma collectNew_eq (nested : List RetRow) :
    ∀ (allR newly : List RetRow) (processed : Finset ℕ),
      collectNew nested allR newly processed
        = (allR ++ dedupNew nested processed,
           newly ++ dedupNew nested processed,
           processed ∪ ((dedupNew nested processed).map (fun r => r.pk)).toFinset) := by
  induction nested with
  | nil =>
    intro allR newly processed
    simp [collectNew, dedupNew]
  | cons nr rest ih =>
    intro allR newly processed
    by_cases h : nr.pk ∈ processed
    · rw [show collectNew (nr :: rest) allR newly processed
          = collectNew rest allR newly processed by simp [collectNew, h]]
      rw [show dedupNew (nr :: rest) processed = dedupNew rest processed by
        simp [dedupNew, h]]
      exact ih allR newly processed
    · rw [show collectNew (nr :: rest) allR newly processed
          = collectNew rest (allR ++ [nr]) (newly ++ [nr]) (insert nr.pk processed) by
        simp [collectNew, h]]
      rw [show dedupNew (nr :: rest) processed
          = nr :: dedupNew rest (insert nr.pk processed) by simp [dedupNew, h]]
      rw [ih (allR ++ [nr]) (newly ++ [nr]) (insert nr.pk processed)]
      refine Prod.ext ?_ (Prod.ext ?_ ?_) <;> simp only
      · simp
      · simp
      · ext a
        simp only [Finset.mem_union, Finset.mem_insert, List.mem_toFinset,
          List.mem_map, List.mem_cons]
        constructor
        · rintro (h1 | h2)
          · rcases h1 with h1 | h1
            · exact Or.inr ⟨nr, Or.inl rfl, h1.symm⟩
            · exact Or.inl h1
          · obtain ⟨x, hx, he⟩ := h2
            exact Or.inr ⟨x, Or.inr hx, he⟩
        · rintro (h1 | h2)
          · exact Or.inl (Or.inr h1)
          · obtain ⟨x, hx, he⟩ := h2
            rcases hx with he2 | hx
            · exact Or.inl (Or.inl (by rw [← he, he2]))
            · exact Or.inr ⟨x, hx, he⟩

lemma dedupNew_subset {nested : List RetRow} {processed : Finset ℕ} :
    ∀ r ∈ dedupNew nested processed, r ∈ nested := by
  induction nested generalizing processed with
  | nil => simp [dedupNew]
  | cons nr rest ih =>
    intro r hr
    by_cases h : nr.pk ∈ processed
    · rw [show dedupNew (nr :: rest) processed = dedupNew rest processed by
        simp [dedupNew, h]] at hr
      exact List.mem_cons_of_mem _ (ih r hr)
    · rw [show dedupNew (nr :: rest) processed
          = nr :: dedupNew rest (insert nr.pk processed) by simp [dedupNew, h]] at hr
      rcases List.mem_cons.mp hr with he | hr2
      · exact he ▸ List.mem_cons_self _ _
      · exact List.mem_cons_of_mem _ (ih r hr2)

lemma dedupNew_not_processed {nested : List RetRow} {processed : Finset ℕ} :
    ∀ r ∈ dedupNew nested processed, r.pk ∉ processed := by
  induction nested generalizing processed with
  | nil => simp [dedupNew]
  | cons nr rest ih =>
    intro r hr
    by_cases h : nr.pk ∈ processed
    · rw [show dedupNew (nr :: rest) processed = dedupNew rest processed by
        simp [dedupNew, h]] at hr
      exact ih r hr
    · rw [show dedupNew (nr :: rest) processed
          = nr :: dedupNew rest (insert nr.pk processed) by simp [dedupNew, h]] at hr
      rcases List.mem_cons.mp hr with he | hr2
      · exact he ▸ h
      · intro hmem
        exact ih r hr2 (Finset.mem_insert_of_mem hmem)

lemma dedupNew_nodup {nested : List RetRow} {processed : Finset ℕ} :
    ((dedupNew nested processed).map (fun r => r.pk)).Nodup := by
  induction nested generalizing processed with
  | nil => simp [dedupNew]
  | cons nr rest ih =>
    by_cases h : nr.pk ∈ processed
    · rw [show dedupNew (nr :: rest) processed = dedupNew rest processed by
        simp [dedupNew, h]]
      exact ih
    · rw [show dedupNew (nr :: rest) processed
          = nr :: dedupNew rest (insert nr.pk processed) by simp [dedupNew, h]]
      rw [List.map_cons, List.nodup_cons]
      refine ⟨?_, ih⟩
      intro hmem
      obtain ⟨x, hx, he⟩ := List.mem_map.mp hmem
      exact dedupNew_not_processed x hx (he ▸ Finset.mem_insert_self _ _)

lemma dedupNew_covers {nested : List RetRow} {processed : Finset ℕ} :
    ∀ nr ∈ nested, nr.pk ∉ processed →
      nr.pk ∈ (dedupNew nested processed).map (fun r => r.pk) := by
  induction nested generalizing processed with
  | nil => simp
  | cons hd rest ih =>
    intro nr hnr hnp
    by_cases h : hd.pk ∈ processed
    · rw [show dedupNew (hd :: rest) processed = dedupNew rest processed by
        simp [dedupNew, h]]
      rcases List.mem_cons.mp hnr with he | hnr2
      · exact absurd h (he ▸ hnp)
      · exact ih nr hnr2 hnp
    · rw [show dedupNew (hd :: rest) processed
          = hd :: dedupNew rest (insert hd.pk processed) by simp [dedupNew, h]]
      rw [List.map_cons, List.mem_cons]
      rcases List.mem_cons.mp hnr with he | hnr2
      · exact Or.inl (by rw [he])
      · by_cases h2 : nr.pk = hd.pk
        · exact Or.inl h2
        · exact Or.inr (ih nr hnr2 (by simp [h2, hnp]))

lemma dedupNew_nil_covers {nested : List RetRow} {processed : Finset ℕ}
    (h : dedupNew nested processed = []) :
    ∀ nr ∈ nested, nr.pk ∈ processed := by
  intro nr hnr
  by_contra hnp
  have := dedupNew_covers nr hnr hnp
  rw [h] at this
  simp at this

lemma bfsLoop_succ_empty (db : ReturnsDB) (fuel : ℕ) (allR toCheck : List RetRow)
    (processed : Finset ℕ) (h : toCheck.isEmpty = true) :
    bfsLoop db (fuel + 1) allR toCheck processed = allR := by
  simp [bfsLoop, h]

lemma bfsLoop_succ_noreps (db : ReturnsDB) (fuel : ℕ) (allR toCheck : List RetRow)
    (processed : Finset ℕ) (h : toCheck.isEmpty = false)
    (h2 : (repsOf db toCheck).isEmpty = true) :
    bfsLoop db (fuel + 1) allR toCheck processed = allR := by
  simp [bfsLoop, h, h2]

lemma bfsLoop_succ_nostocks (db : ReturnsDB) (fuel : ℕ) (allR toCheck : List RetRow)
    (processed : Finset ℕ) (h : toCheck.isEmpty = false)
    (h2 : (repsOf db toCheck).isEmpty = false)
    (h3 : (repStocksOf db toCheck).isEmpty = true) :
    bfsLoop db (fuel + 1) allR toCheck processed = allR := by
  simp [bfsLoop, h, h2, h3]

lemma bfsLoop_succ_step (db : ReturnsDB) (fuel : ℕ) (allR toCheck : List RetRow)
    (processed : Finset ℕ) (h : toCheck.isEmpty = false)
    (h2 : (repsOf db toCheck).isEmpty = false)
    (h3 : (repStocksOf db toCheck).isEmpty = false) :
    bfsLoop db (fuel + 1) allR toCheck processed
      = (if (dedupNew (nestedOf db toCheck processed) processed).isEmpty then
          allR ++ dedupNew (nestedOf db toCheck processed) processed
        else
          bfsLoop db fuel
            (allR ++ dedupNew (nestedOf db toCheck processed) processed)
            (dedupNew (nestedOf db toCheck processed) processed)
            (processed ∪ ((dedupNew (nestedOf db toCheck processed) processed).map
              (fun r => r.pk)).toFinset)) := by
  simp [bfsLoop, h, h2, h3, collectNew_eq]

/-- The invariant of the discovery loop: `processed` is exactly the set of
pks in `all_returns`, which is duplicate-free, drawn from the returns table,
sound for relatedness, contains the frontier `returns_to_check` and every
direct return, and every successor of an already-expanded return is
processed. -/
def BfsInv (db : ReturnsDB) (po : ℕ) (allR toCheck : List RetRow)
    (processed : Finset ℕ) : Prop :=
  (∀ p, p ∈ processed ↔ p ∈ allR.map (fun r => r.pk)) ∧
    (allR.map (fun r => r.pk)).Nodup ∧
    (∀ r ∈ allR, r ∈ db.returns) ∧
    (∀ r ∈ allR, RelatedReturn db po r) ∧
    (∀ r ∈ toCheck, r ∈ allR) ∧
    (∀ r ∈ allR, r ∉ toCheck → ∀ r2, SuccR db r r2 → r2.pk ∈ processed) ∧
    (∀ r ∈ db.returns, r.purchase_order = some po → r ∈ allR)

lemma mem_of_pk_mem {db : ReturnsDB}
    (hnodup : (db.returns.map (fun r => r.pk)).Nodup)
    {allR : List RetRow} (hsub : ∀ r ∈ allR, r ∈ db.returns)
    {r2 : RetRow} (hr2 : r2 ∈ db.returns)
    (hpk : r2.pk ∈ allR.map (fun r => r.pk)) : r2 ∈ allR := by
  obtain ⟨r3, hr3, he⟩ := List.mem_map.mp hpk
  have : r3 = r2 := List.inj_on_of_nodup_map hnodup (hsub r3 hr3) hr2 he
  exact this ▸ hr3

lemma succ_mem_nested {db : ReturnsDB} {toCheck : List RetRow}
    {processed : Finset ℕ} {r r2 : RetRow}
    (hrT : r ∈ toCheck) (hsucc : SuccR db r r2) (hp : r2.pk ∉ processed) :
    r2 ∈ nestedOf db toCheck processed := by
  obtain ⟨rp, hrp, hpr, s, hcs, hr2mem, hst⟩ := hsucc
  have hrep : rp ∈ repsOf db toCheck := by
    simp only [repsOf, List.mem_filter]
    refine ⟨hrp, ?_⟩
    rw [List.any_eq_true]
    exact ⟨r, hrT, by simp [hpr]⟩
  have hsmem : s ∈ repStocksOf db toCheck :=
    List.mem_filterMap.mpr ⟨rp, hrep, hcs⟩
  simp only [nestedOf, List.mem_filter]
  refine ⟨hr2mem, ?_⟩
  rw [Bool.and_eq_true]
  constructor
  · rw [hst]
    exact List.elem_eq_true_of_mem hsmem
  · simpa using hp

/-- When every row of `nested_returns` is already processed, the collected
list is closed under the replacement-successor relation. -/
lemma bfs_closed (db : ReturnsDB) (po : ℕ) (allR toCheck : List RetRow)
    (processed : Finset ℕ)
    (hnodup : (db.returns.map (fun r => r.pk)).Nodup)
    (hinv : BfsInv db po allR toCheck processed)
    (hnil : ∀ nr ∈ nestedOf db toCheck processed, nr.pk ∈ processed) :
    ∀ r ∈ allR, ∀ r2, SuccR db r r2 → r2 ∈ allR := by
  obtain ⟨h1, h2, h3, h4, h5, h6, h7⟩ := hinv
  intro r hr r2 hsucc
  by_cases hrT : r ∈ toCheck
  · by_cases hp : r2.pk ∈ processed
    · obtain ⟨rp, hrp, hpr, s, hcs, hr2mem, hst⟩ := hsucc
      exact mem_of_pk_mem hnodup h3 hr2mem ((h1 _).mp hp)
    · exact absurd (hnil r2 (succ_mem_nested hrT hsucc hp)) hp
  · obtain ⟨rp, hrp, hpr, s, hcs, hr2mem, hst⟩ := hsucc
    exact mem_of_pk_mem hnodup h3 hr2mem
      ((h1 _).mp (h6 r hr hrT r2 ⟨rp, hrp, hpr, s, hcs, hr2mem, hst⟩))

lemma bfs_inv_new (db : ReturnsDB) (po : ℕ) (allR toCheck : List RetRow)
    (processed : Finset ℕ) (hinv : BfsInv db po allR toCheck processed) :
    BfsInv db po
      (allR ++ dedupNew (nestedOf db toCheck processed) processed)
      (dedupNew (nestedOf db toCheck processed) processed)
      (processed ∪ ((dedupNew (nestedOf db toCheck processed) processed).map
        (fun r => r.pk)).toFinset) := by
  obtain ⟨h1, h2, h3, h4, h5, h6, h7⟩ := hinv
  have hnestedProp : ∀ r ∈ nestedOf db toCheck processed,
      r ∈ db.returns ∧ r.stock_item ∈ repStocksOf db toCheck ∧ r.pk ∉ processed := by
    intro r hr
    simp only [nestedOf, List.mem_filter, Bool.and_eq_true] at hr
    obtain ⟨hmem, hc1, hc2⟩ := hr
    refine ⟨hmem, ?_, ?_⟩
    · exact List.mem_of_elem_eq_true hc1
    · simpa using hc2
  have hΔret : ∀ r ∈ dedupNew (nestedOf db toCheck processed) processed,
      r ∈ db.returns := fun r hr => (hnestedProp r (dedupNew_subset r hr)).1
  have hΔrelated : ∀ r2 ∈ dedupNew (nestedOf db toCheck processed) processed,
      RelatedReturn db po r2 := by
    intro r2 hr2
    obtain ⟨hmem, hstock, hnp⟩ := hnestedProp r2 (dedupNew_subset r2 hr2)
    obtain ⟨rp, hrpfilter, hcs⟩ := List.mem_filterMap.mp hstock
    simp only [repsOf, List.mem_filter] at hrpfilter
    obtain ⟨hrp, hany⟩ := hrpfilter
    rw [List.any_eq_true] at hany
    obtain ⟨r, hrT, hpk⟩ := hany
    have hpk2 : rp.purchase_return = r.pk := by
      have := of_decide_eq_true hpk
      exact this.symm
    exact RelatedReturn.nested (h4 r (h5 r hrT)) hrp hpk2 hcs hmem rfl
  refine ⟨?_, ?_, ?_, ?_, ?_, ?_, ?_⟩
  · intro p
    simp only [Finset.mem_union, List.mem_toFinset, List.map_append, List.mem_append]
    rw [h1 p]
  · rw [List.map_append]
    apply List.Nodup.append h2 dedupNew_nodup
    intro a ha hb
    obtain ⟨x, hx, he⟩ := List.mem_map.mp hb
    have : a ∈ processed := (h1 a).mpr ha
    exact dedupNew_not_processed x hx (he ▸ this)
  · intro r hr
    rcases List.mem_append.mp hr with h | h
    · exact h3 r h
    · exact hΔret r h
  · intro r hr
    rcases List.mem_append.mp hr with h | h
    · exact h4 r h
    · exact hΔrelated r h
  · intro r hr
    exact List.mem_append_right _ hr
  · intro r hr hnT r2 hsucc
    rcases List.mem_append.mp hr with hrA | hrD
    · by_cases hrT : r ∈ toCheck
      · by_cases hp : r2.pk ∈ processed
        · exact Finset.mem_union_left _ hp
        · refine Finset.mem_union_right _ ?_
          rw [List.mem_toFinset]
          exact dedupNew_covers r2 (succ_mem_nested hrT hsucc hp) hp
      · exact Finset.mem_union_left _ (h6 r hrA hrT r2 hsucc)
    · exact absurd hrD hnT
  · intro r hr hpo
    exact List.mem_append_left _ (h7 r hr hpo)

lemma bfs_card_decrease (db : ReturnsDB) (toCheck : List RetRow)
    (processed : Finset ℕ)
    (hD : dedupNew (nestedOf db toCheck processed) processed ≠ []) :
    ((db.returns.map (fun r => r.pk)).toFinset \
        (processed ∪ ((dedupNew (nestedOf db toCheck processed) processed).map
          (fun r => r.pk)).toFinset)).card
      < ((db.returns.map (fun r => r.pk)).toFinset \ processed).card := by
  apply Finset.card_lt_card
  rw [Finset.ssubset_iff_of_subset
    (Finset.sdiff_subset_sdiff (Finset.Subset.refl _) Finset.subset_union_left)]
  obtain ⟨r0, hr0⟩ := List.exists_mem_of_ne_nil _ hD
  refine ⟨r0.pk, ?_, ?_⟩
  · rw [Finset.mem_sdiff]
    constructor
    · rw [List.mem_toFinset]
      have hmem : r0 ∈ db.returns := by
        have := dedupNew_subset r0 hr0
        simp only [nestedOf, List.mem_filter] at this
        exact this.1
      exact List.mem_map_of_mem _ hmem
    · exact dedupNew_not_processed r0 hr0
  · rw [Finset.mem_sdiff]
    intro hc
    apply hc.2
    refine Finset.mem_union_right _ ?_
    rw [List.mem_toFinset]
    exact List.mem_map_of_mem _ hr0

set_option maxHeartbeats 1600000 in
lemma bfs_master (db : ReturnsDB) (po : ℕ)
    (hnodup : (db.returns.map (fun r => r.pk)).Nodup) :
    ∀ (n : ℕ) (allR toCheck : List RetRow) (processed : Finset ℕ),
      ((db.returns.map (fun r => r.pk)).toFinset \ processed).card < n →
      BfsInv db po allR toCheck processed →
      (∀ r ∈ allR, r ∈ bfsLoop db n allR toCheck processed) ∧
        (∀ r ∈ bfsLoop db n allR toCheck processed, RelatedReturn db po r) ∧
        (∀ r ∈ bfsLoop db n allR toCheck processed, ∀ r2, SuccR db r r2 →
            r2 ∈ bfsLoop db n allR toCheck processed) ∧
        ((bfsLoop db n allR toCheck processed).map (fun r => r.pk)).Nodup ∧
        (∀ r ∈ db.returns, r.purchase_order = some po →
            r ∈ bfsLoop db n allR toCheck processed) ∧
        bfsLoop db (n + 1) allR toCheck processed
          = bfsLoop db n allR toCheck processed := by
  intro n
  induction n with
  | zero =>
    intro allR toCheck processed hcard hinv
    exact absurd hcard (by omega)
  | succ n ih =>
    intro allR toCheck processed hcard hinv
    have hinvC := hinv
    obtain ⟨h1, h2, h3, h4, h5, h6, h7⟩ := hinvC
    by_cases hTC : toCheck.isEmpty = true
    · have hnil : ∀ nr ∈ nestedOf db toCheck processed, nr.pk ∈ processed := by
        rw [List.isEmpty_iff.mp hTC]
        intro nr hnr
        simp [nestedOf, repStocksOf, repsOf] at hnr
      have hclosed := bfs_closed db po allR toCheck processed hnodup hinv hnil
      have hres := bfsLoop_succ_empty db n allR toCheck processed hTC
      have hres2 := bfsLoop_succ_empty db (n + 1) allR toCheck processed hTC
      rw [hres, hres2]
      exact ⟨fun r hr => hr, h4, hclosed, h2, h7, rfl⟩
    · have hTCf : toCheck.isEmpty = false := Bool.eq_false_iff.mpr hTC
      by_cases hRE : (repsOf db toCheck).isEmpty = true
      · have hrs : repStocksOf db toCheck = [] := by
          rw [repStocksOf, List.isEmpty_iff.mp hRE]
          rfl
        have hnil : ∀ nr ∈ nestedOf db toCheck processed, nr.pk ∈ processed := by
          intro nr hnr
          simp [nestedOf, hrs] at hnr
        have hclosed := bfs_closed db po allR toCheck processed hnodup hinv hnil
        have hres := bfsLoop_succ_noreps db n allR toCheck processed hTCf hRE
        have hres2 := bfsLoop_succ_noreps db (n + 1) allR toCheck processed hTCf hRE
        rw [hres, hres2]
        exact ⟨fun r hr => hr, h4, hclosed, h2, h7, rfl⟩
      · have hREf : (repsOf db toCheck).isEmpty = false := Bool.eq_false_iff.mpr hRE
        by_cases hRS : (repStocksOf db toCheck).isEmpty = true
        · have hnil : ∀ nr ∈ nestedOf db toCheck processed, nr.pk ∈ processed := by
            intro nr hnr
            simp [nestedOf, List.isEmpty_iff.mp hRS] at hnr
          have hclosed := bfs_closed db po allR toCheck processed hnodup hinv hnil
          have hres := bfsLoop_succ_nostocks db n allR toCheck processed hTCf hREf hRS
          have hres2 := bfsLoop_succ_nostocks db (n + 1) allR toCheck processed hTCf hREf hRS
          rw [hres, hres2]
          exact ⟨fun r hr => hr, h4, hclosed, h2, h7, rfl⟩
        · have hRSf : (repStocksOf db toCheck).isEmpty = false := Bool.eq_false_iff.mpr hRS
          have hstep := bfsLoop_succ_step db n allR toCheck processed hTCf hREf hRSf
          have hstep2 := bfsLoop_succ_step db (n + 1) allR toCheck processed hTCf hREf hRSf
          by_cases hD : (dedupNew (nestedOf db toCheck processed) processed).isEmpty = true
          · have hnil : ∀ nr ∈ nestedOf db toCheck processed, nr.pk ∈ processed :=
              dedupNew_nil_covers (List.isEmpty_iff.mp hD)
            have hclosed := bfs_closed db po allR toCheck processed hnodup hinv hnil
            rw [hstep, hstep2, if_pos hD, if_pos hD, List.isEmpty_iff.mp hD,
              List.append_nil]
            exact ⟨fun r hr => hr, h4, hclosed, h2, h7, rfl⟩
          · have hD' : dedupNew (nestedOf db toCheck processed) processed ≠ [] := by
              intro h
              rw [h] at hD
              simp at hD
            have hcard2 : ((db.returns.map (fun r => r.pk)).toFinset \
                (processed ∪ ((dedupNew (nestedOf db toCheck processed) processed).map
                  (fun r => r.pk)).toFinset)).card < n := by
              have := bfs_card_decrease db toCheck processed hD'
              omega
            have hinv2 := bfs_inv_new db po allR toCheck processed hinv
            obtain ⟨iA, iB, iC, iD, iE, iF⟩ := ih
              (allR ++ dedupNew (nestedOf db toCheck processed) processed)
              (dedupNew (nestedOf db toCheck processed) processed)
              (processed ∪ ((dedupNew (nestedOf db toCheck processed) processed).map
                (fun r => r.pk)).toFinset)
              hcard2 hinv2
            rw [hstep, hstep2, if_neg (by simp [hD]), if_neg (by simp [hD])]
            refine ⟨?_, iB, iC, iD, iE, iF⟩
            intro r hr
            exact iA r (List.mem_append_left _ hr)

lemma bfs_inv_init (db : ReturnsDB) (po : ℕ)
    (hnodup : (db.returns.map (fun r => r.pk)).Nodup) :
    BfsInv db po
      (db.returns.filter (fun r => r.purchase_order = some po))
      (db.returns.filter (fun r => r.purchase_order = some po))
      ((db.returns.filter (fun r => r.purchase_order = some po)).map
        (fun r => r.pk)).toFinset := by
  refine ⟨?_, ?_, ?_, ?_, ?_, ?_, ?_⟩
  · intro p
    rw [List.mem_toFinset]
  · exact hnodup.sublist ((List.filter_sublist _).map _)
  · intro r hr
    exact List.mem_of_mem_filter hr
  · intro r hr
    have h2 := List.mem_filter.mp hr
    exact RelatedReturn.direct h2.1 (by simpa using h2.2)
  · intro r hr
    exact hr
  · intro r hr hnT r2 hsucc
    exact absurd hr hnT
  · intro r hr hpo
    rw [List.mem_filter]
    exact ⟨hr, by simp [hpo]⟩

/-- C2: `_get_all_related_returns` terminates (its loop stabilizes within
`|returns| + 1` iterations — extra fuel never changes the result) and
returns exactly the set of returns reachable from the order — its direct
returns plus, transitively, every return against a replacement batch
created for an already-included return — with no return listed twice. -/
theorem get_all_related_returns_spec (db : ReturnsDB) (po : ℕ)
    (hnodup : (db.returns.map (fun r => r.pk)).Nodup) (r : RetRow) (extra : ℕ) :
    (r ∈ get_all_related_returns db po ↔ RelatedReturn db po r) ∧
      ((get_all_related_returns db po).map (fun r0 => r0.pk)).Nodup ∧
      bfsLoop db (db.returns.length + 1 + extra)
          (db.returns.filter (fun r0 => r0.purchase_order = some po))
          (db.returns.filter (fun r0 => r0.purchase_order = some po))
          ((db.returns.filter (fun r0 => r0.purchase_order = some po)).map
            (fun r0 => r0.pk)).toFinset
        = get_all_related_returns db po := by
  have hbound : ∀ k, ((db.returns.map (fun r0 => r0.pk)).toFinset \
      ((db.returns.filter (fun r0 => r0.purchase_order = some po)).map
        (fun r0 => r0.pk)).toFinset).card < db.returns.length + 1 + k := by
    intro k
    have h1 : ((db.returns.map (fun r0 => r0.pk)).toFinset \
        ((db.returns.filter (fun r0 => r0.purchase_order = some po)).map
          (fun r0 => r0.pk)).toFinset).card
        ≤ ((db.returns.map (fun r0 => r0.pk)).toFinset).card :=
      Finset.card_le_card (Finset.sdiff_subset)
    have h2 : ((db.returns.map (fun r0 => r0.pk)).toFinset).card
        ≤ (db.returns.map (fun r0 => r0.pk)).length := List.toFinset_card_le _
    rw [List.length_map] at h2
    omega
  have hmain := fun k => bfs_master db po hnodup (db.returns.length + 1 + k)
    (db.returns.filter (fun r0 => r0.purchase_order = some po))
    (db.returns.filter (fun r0 => r0.purchase_order = some po))
    ((db.returns.filter (fun r0 => r0.purchase_order = some po)).map
      (fun r0 => r0.pk)).toFinset
    (hbound k) (bfs_inv_init db po hnodup)
  have hstab : ∀ k, bfsLoop db (db.returns.length + 1 + k)
      (db.returns.filter (fun r0 => r0.purchase_order = some po))
      (db.returns.filter (fun r0 => r0.purchase_order = some po))
      ((db.returns.filter (fun r0 => r0.purchase_order = some po)).map
        (fun r0 => r0.pk)).toFinset
      = get_all_related_returns db po := by
    intro k
    induction k with
    | zero => rfl
    | succ k ihk =>
      have := (hmain k).2.2.2.2.2
      rw [← ihk]
      exact this
  obtain ⟨mA, mB, mC, mD, mE, mF⟩ := hmain 0
  refine ⟨⟨fun h => mB r h, ?_⟩, mD, hstab extra⟩
  intro hrel
  induction hrel with
  | direct hmem hpo => exact mE _ hmem hpo
  | nested hrel2 hrp hpr hcs hmem hst ihr =>
    exact mC _ ihr _ ⟨_, hrp, hpr, _, hcs, hmem, hst⟩

/-- The nested-return scenario: return 1 is a direct return of order 1 on
batch 1; the replacement for it created batch 2; return 2 is a later return
on batch 2 with no purchase order of its own. -/
def nestedR2 : RetRow := { pk := 2, stock_item := 2, purchase_order := none }

def nestedDB : ReturnsDB :=
  { returns := [{ pk := 1, stock_item := 1, purchase_order := some 1 }, nestedR2]
    replacements := [{ pk := 1, purchase_return := 1, created_stock_item := some 2 }]
    stocks := []
    po_items := [] }

theorem get_all_related_returns_spec_witness :
    (nestedDB.returns.map (fun r => r.pk)).Nodup ∧
      ((nestedR2 ∈ get_all_related_returns nestedDB 1 ↔
          RelatedReturn nestedDB 1 nestedR2) ∧
        ((get_all_related_returns nestedDB 1).map (fun r0 => r0.pk)).Nodup ∧
        bfsLoop nestedDB (nestedDB.returns.length + 1 + 0)
            (nestedDB.returns.filter (fun r0 => r0.purchase_order = some 1))
            (nestedDB.returns.filter (fun r0 => r0.purchase_order = some 1))
            ((nestedDB.returns.filter (fun r0 => r0.purchase_order = some 1)).map
              (fun r0 => r0.pk)).toFinset
          = get_all_related_returns nestedDB 1) :=
  ⟨by decide, get_all_related_returns_spec nestedDB 1 (by decide) nestedR2 0⟩

/-- `PurchaseOrder.grand_total` (models.py lines 488-493): sums
`quantity * cost_price` (cents) over the StockItems whose
`purchase_order_item` belongs to this order — the ORM filter
`purchase_order_item__purchase_order=self`. -/
def grand_total (db : ReturnsDB) (po : ℕ) : ℤ :=
  ((db.stocks.filter (fun st =>
      db.po_items.any (fun it =>
        st.purchase_order_item = some it.pk && it.purchase_order = po))).map
    (fun st => (st.quantity : ℤ) * st.cost_price)).sum

/-- Modelled from the SPEC's words, not the code: grand_total also counts
StockItems linked to the order via the replacement chain — batches created
by a ReplacementItem for a return in `_get_all_related_returns`. -/
def grand_total_spec (db : ReturnsDB) (po : ℕ) : ℤ :=
  ((db.stocks.filter (fun st =>
      db.po_items.any (fun it =>
        st.purchase_order_item = some it.pk && it.purchase_order = po)
      || db.replacements.any (fun rp =>
        rp.created_stock_item = some st.pk &&
          (get_all_related_returns db po).any
            (fun r => r.pk = rp.purchase_return)))).map
    (fun st => (st.quantity : ℤ) * st.cost_price)).sum

/-- One order item (pk 1) of order 1; batch 1 received against it; a direct
return on batch 1 replaced by batch 2, which `ReplacementItem.save` creates
with `purchase_order_item=None` and source REPLACEMENT. -/
def exdb : ReturnsDB :=
  { returns := [{ pk := 1, stock_item := 1, purchase_order := some 1 }]
    replacements := [{ pk := 1, purchase_return := 1, created_stock_item := some 2 }]
    stocks := [{ pk := 1, purchase_order_item := some 1, quantity := 10,
                 cost_price := 500, source := "PURCHASE_ORDER" },
               { pk := 2, purchase_order_item := none, quantity := 10,
                 cost_price := 500, source := "REPLACEMENT" }]
    po_items := [{ pk := 1, purchase_order := 1 }] }

/-- C3 counterexample: a replacement batch worth 50.00 sits in the order's
replacement chain, but `grand_total` filters on
`purchase_order_item__purchase_order` and the replacement batch has
`purchase_order_item=None`, so the code yields 50.00 while the spec's sum
yields 100.00. -/
theorem grand_total_counterexample :
    grand_total exdb 1 = 5000 ∧ grand_total_spec exdb 1 = 10000 ∧
      ({ pk := 2, purchase_order_item := none, quantity := 10,
         cost_price := 500, source := "REPLACEMENT" } : GStockRow) ∈ exdb.stocks := by
  refine ⟨rfl, rfl, ?_⟩
  simp [exdb]

lemma sum_filter_or_disjoint (v : GStockRow → ℤ) (A B : GStockRow → Bool) :
    ∀ l : List GStockRow, (∀ st ∈ l, ¬(A st = true ∧ B st = true)) →
      ((l.filter (fun st => A st || B st)).map v).sum
        = ((l.filter A).map v).sum + ((l.filter B).map v).sum := by
  intro l
  induction l with
  | nil => intro _; simp
  | cons st rest ih =>
    intro hdisj
    have hrest := fun s hs => hdisj s (List.mem_cons_of_mem st hs)
    cases hA : A st <;> cases hB : B st
    · rw [List.filter_cons_of_neg (by simp [hA, hB]),
        List.filter_cons_of_neg (by simp [hA]),
        List.filter_cons_of_neg (by simp [hB])]
      exact ih hrest
    · rw [List.filter_cons_of_pos (by simp [hA, hB]),
        List.filter_cons_of_neg (by simp [hA]), List.filter_cons_of_pos hB,
        List.map_cons, List.sum_cons, List.map_cons, List.sum_cons, ih hrest]
      ring
    · rw [List.filter_cons_of_pos (by simp [hA, hB]),
        List.filter_cons_of_pos hA, List.filter_cons_of_neg (by simp [hB]),
        List.map_cons, List.sum_cons, List.map_cons, List.sum_cons, ih hrest]
      ring
    · exact absurd ⟨hA, hB⟩ (hdisj st (List.mem_cons_self st rest))

lemma sum_filter_any (stocks : List GStockRow) (po : ℕ) :
    ∀ items : List GPOItem, (items.map (fun it => it.pk)).Nodup →
      ((stocks.filter (fun st => items.any (fun it =>
          st.purchase_order_item = some it.pk && it.purchase_order = po))).map
        (fun st => (st.quantity : ℤ) * st.cost_price)).sum
      = ((items.filter (fun it => it.purchase_order = po)).map
          (fun it => ((stocks.filter
              (fun st => st.purchase_order_item = some it.pk)).map
            (fun st => (st.quantity : ℤ) * st.cost_price)).sum)).sum := by
  intro items
  induction items with
  | nil => intro _; simp
  | cons it rest ih =>
    intro hnodup
    rw [List.map_cons, List.nodup_cons] at hnodup
    obtain ⟨hpk, hrest⟩ := hnodup
    by_cases hpo : it.purchase_order = po
    · have hdisj : ∀ st ∈ stocks,
          ¬((st.purchase_order_item = some it.pk && it.purchase_order = po) = true ∧
            (rest.any (fun it2 =>
              st.purchase_order_item = some it2.pk && it2.purchase_order = po)) = true) := by
        intro st _ ⟨hA, hB⟩
        rw [Bool.and_eq_true, decide_eq_true_iff, decide_eq_true_iff] at hA
        rw [List.any_eq_true] at hB
        obtain ⟨it2, hit2, hcond⟩ := hB
        rw [Bool.and_eq_true, decide_eq_true_iff] at hcond
        have : it.pk = it2.pk := by
          have := hA.1.symm.trans hcond.1
          exact Option.some.inj this
        exact hpk (this ▸ List.mem_map_of_mem (fun x => x.pk) hit2)
      have hsplit := sum_filter_or_disjoint
        (fun st => (st.quantity : ℤ) * st.cost_price)
        (fun st => st.purchase_order_item = some it.pk && it.purchase_order = po)
        (fun st => rest.any (fun it2 =>
          st.purchase_order_item = some it2.pk && it2.purchase_order = po))
        stocks hdisj
      have heq : stocks.filter (fun st =>
            st.purchase_order_item = some it.pk && it.purchase_order = po)
          = stocks.filter (fun st => st.purchase_order_item = some it.pk) :=
        List.filter_congr (fun st _ => by simp [hpo])
      simp only [List.any_cons]
      rw [hsplit, ih hrest, List.filter_cons_of_pos (by simp [hpo]),
        List.map_cons, List.sum_cons, heq]
    · have hhead : ∀ st ∈ stocks,
          (st.purchase_order_item = some it.pk && it.purchase_order = po) = false := by
        intro st _
        simp [hpo]
      have heq2 : stocks.filter (fun st =>
            (st.purchase_order_item = some it.pk && it.purchase_order = po)
              || rest.any (fun it2 =>
                st.purchase_order_item = some it2.pk && it2.purchase_order = po))
          = stocks.filter (fun st => rest.any (fun it2 =>
              st.purchase_order_item = some it2.pk && it2.purchase_order = po)) :=
        List.filter_congr (fun st hst => by rw [hhead st hst, Bool.false_or])
      simp only [List.any_cons]
      rw [heq2, ih hrest, List.filter_cons_of_neg (by simp [hpo])]

/-- C3 (amended): `grand_total` counts only the batches received directly
against the order's own items — regrouped as the per-item double sum — and
excludes the replacement chain: removing every REPLACEMENT-source batch
with no `purchase_order_item` (precisely how `ReplacementItem.save` creates
them) leaves `grand_total` unchanged. -/
theorem grand_total_direct_only (db : ReturnsDB) (po : ℕ)
    (hnodup : (db.po_items.map (fun it => it.pk)).Nodup) :
    grand_total db po
        = ((db.po_items.filter (fun it => it.purchase_order = po)).map
            (fun it => ((db.stocks.filter
                (fun st => st.purchase_order_item = some it.pk)).map
              (fun st => (st.quantity : ℤ) * st.cost_price)).sum)).sum ∧
      grand_total { db with stocks := db.stocks.filter (fun st =>
          !(st.source = "REPLACEMENT" && st.purchase_order_item = none)) } po
        = grand_total db po := by
  have heq3 : db.stocks.filter (fun st =>
        (db.po_items.any (fun it =>
          st.purchase_order_item = some it.pk && it.purchase_order = po))
        && !(st.source = "REPLACEMENT" && st.purchase_order_item = none))
      = db.stocks.filter (fun st => db.po_items.any (fun it =>
          st.purchase_order_item = some it.pk && it.purchase_order = po)) := by
    apply List.filter_congr
    intro st _
    cases hm : db.po_items.any (fun it =>
        st.purchase_order_item = some it.pk && it.purchase_order = po)
    · simp
    · obtain ⟨itw, _, hcond⟩ := List.any_eq_true.mp hm
      rw [Bool.and_eq_true, decide_eq_true_iff] at hcond
      simp [hcond.1]
  constructor
  · exact sum_filter_any db.stocks po db.po_items hnodup
  · have hgoal : (((db.stocks.filter (fun st =>
          !(st.source = "REPLACEMENT" && st.purchase_order_item = none))).filter
        (fun st => db.po_items.any (fun it =>
          st.purchase_order_item = some it.pk && it.purchase_order = po))).map
        (fun st => (st.quantity : ℤ) * st.cost_price)).sum
      = grand_total db po := by
      simp only [List.filter_filter]
      rw [heq3]
      rfl
    exact hgoal

theorem grand_total_direct_only_witness :
    (exdb.po_items.map (fun it => it.pk)).Nodup ∧
      (grand_total exdb 1
          = ((exdb.po_items.filter (fun it => it.purchase_order = 1)).map
              (fun it => ((exdb.stocks.filter
                  (fun st => st.purchase_order_item = some it.pk)).map
                (fun st => (st.quantity : ℤ) * st.cost_price)).sum)).sum ∧
        grand_total { exdb with stocks := exdb.stocks.filter (fun st =>
            !(st.source = "REPLACEMENT" && st.purchase_order_item = none)) } 1
          = grand_total exdb 1) :=
  ⟨by decide, grand_total_direct_only exdb 1 (by decide)⟩

end Billing
